import Mathlib

/-!
# Snake game engine (`snake.c`): embedding and verified properties

The game state of `snake.c` lives in four globals: the head pointer of a doubly
linked list of cells (`snakeHead`), the cherry coordinates (`cherry_x`,
`cherry_y`) and the cherry counter (`num_cherries`).

Embedding choices.

* The doubly linked list is the list of its cells from the head on: following
  `next` walks down the list, and following `prev` from a cell walks the cells
  before it, nearest first.  A cursor into the list is therefore a pair
  (cells before it, nearest first; cells from it on).
* C `int` values are `Int`.  Coordinates move by one per call, so signed
  overflow (undefined in C) is not modelled.
* `rand()` returns a non-negative `int`; the random source is the list of the
  values the successive calls return.  A call that needs a value when the list
  is used up stops with `Stop.no_draws`: the code has not returned on these
  draws.
* Dereferencing a null pointer stops with `Stop.null_deref`.
* `malloc` is taken to succeed (on failure `add_to_head` leaves the list alone).
* The curses calls (`box`, `refresh`, `mvaddch`, `getch`) do not touch the four
  globals and are left out.
-/

namespace Snake

/-- The game window height, `#define WIN_H 24`. -/
def WIN_H : Int := 24

/-- The game window width, `#define WIN_W 80`. -/
def WIN_W : Int := 80

/-- The payload of `struct sn_cell`; the `next` and `prev` pointers are the
position of the cell in the list. -/
structure SNcell where
  x : Int
  y : Int
deriving DecidableEq, Repr

/-- The four globals of `snake.c`. -/
structure Game where
  snakeHead : List SNcell
  cherry_x : Int
  cherry_y : Int
  num_cherries : Int
deriving DecidableEq, Repr

/-- Why a call did not return normally. -/
inductive Stop where
  | null_deref
  | no_draws
deriving DecidableEq, Repr

/-- The outcome of a call: the new globals and the unused draws, or a stop. -/
inductive Outcome where
  | ok (g : Game) (draws : List Nat)
  | stop (why : Stop)
deriving DecidableEq, Repr

/-- The globals at program start: `snakeHead = NULL`, `num_cherries = 0`, and the
uninitialised file-scope `int`s are zero. -/
def globals_init : Game :=
  { snakeHead := [], cherry_x := 0, cherry_y := 0, num_cherries := 0 }

/-- Embedding of `add_to_head(x, y)`: a new cell becomes the head. -/
def add_to_head (x y : Int) (g : Game) : Game :=
  { g with snakeHead := { x := x, y := y } :: g.snakeHead }

/-- The scan loop of `new_cherry`: is some cell from `temp` on at the cherry
position `(cx, cy)`? -/
def cherry_hit (cx cy : Int) : List SNcell → Bool
  | [] => false
  | temp :: rest =>
    if temp.x = cx ∧ temp.y = cy then true else cherry_hit cx cy rest

/-- Embedding of `new_cherry()`: draw both coordinates, scan the body, and on
a hit call `new_cherry()` again (the `break` after the inner call ends the
scan, so the position left is the one of the innermost call). -/
def new_cherry : List Nat → Game → Outcome
  | r1 :: r2 :: rest, g =>
    let g1 : Game := { g with cherry_x := (r1 : Int) % (WIN_W - 2) + 1 }
    let g2 : Game := { g1 with cherry_y := (r2 : Int) % (WIN_H - 2) + 1 }
    if cherry_hit g2.cherry_x g2.cherry_y g2.snakeHead then new_cherry rest g2
    else Outcome.ok g2 rest
  | _, _ => Outcome.stop Stop.no_draws

/-- The loop of `get_tail()`, as a cursor: `before` holds the cells already
passed (nearest first), the list the cells from `temp` on.  Returns the cells
before the tail (its `prev` chain) and the tail. -/
def get_tail_loop (before : List SNcell) : List SNcell → Option (List SNcell × SNcell)
  | [] => none
  | [temp] => some (before, temp)
  | temp :: nxt :: rest => get_tail_loop (temp :: before) (nxt :: rest)

/-- Embedding of `get_tail()`; `none` when `snakeHead` is `NULL` (the loop
condition reads `temp->next`). -/
def get_tail (g : Game) : Option (List SNcell × SNcell) :=
  get_tail_loop [] g.snakeHead

/-- The `else` branch of `move_snake`: `temp = get_tail(); temp = temp->prev;
free(temp->next); temp->next = NULL;`.  The cell before the tail becomes the
last cell; the list from the head on is its `prev` chain read backwards. -/
def trim_tail (draws : List Nat) (g : Game) : Outcome :=
  match get_tail g with
  | none => Outcome.stop Stop.null_deref
  | some ([], _) => Outcome.stop Stop.null_deref
  | some (p :: before, _) =>
    Outcome.ok { g with snakeHead := (p :: before).reverse } draws

/-- The `switch` of `move_snake`: the target cell for the head `h`; a character
outside the four cases leaves the initial `(-1, -1)`. -/
def target (dir : Char) (h : SNcell) : SNcell :=
  if dir = 'u' then { x := h.x, y := h.y - 1 }
  else if dir = 'l' then { x := h.x - 1, y := h.y }
  else if dir = 'd' then { x := h.x, y := h.y + 1 }
  else if dir = 'r' then { x := h.x + 1, y := h.y }
  else { x := -1, y := -1 }

/-- Embedding of `move_snake(dir)`. -/
def move_snake (dir : Char) (draws : List Nat) (g : Game) : Outcome :=
  match g.snakeHead with
  | [] => Outcome.stop Stop.null_deref
  | [_] => Outcome.stop Stop.null_deref
  | h :: nxt :: _ =>
    let t := target dir h
    if t.x = nxt.x ∧ t.y = nxt.y then Outcome.ok g draws
    else
      let g1 := add_to_head t.x t.y g
      if g1.cherry_x = t.x ∧ g1.cherry_y = t.y then
        new_cherry draws { g1 with num_cherries := g1.num_cherries + 1 }
      else trim_tail draws g1

/-- The inner loop of `snake_legal`: does a cell of the `prev` chain `temp2`
have the position of `temp`? -/
def prev_hit (temp : SNcell) : List SNcell → Bool
  | [] => false
  | temp2 :: more =>
    if temp.x = temp2.x ∧ temp.y = temp2.y then true else prev_hit temp more

/-- The outer loop of `snake_legal`, as a cursor: `before` is the `prev` chain
of `temp`. -/
def snake_legal_loop (before : List SNcell) : List SNcell → Bool
  | [] => true
  | temp :: rest =>
    if temp.x < 1 ∨ temp.y < 1 ∨ temp.x > WIN_W - 2 ∨ temp.y > WIN_H - 2 then false
    else if prev_hit temp before then false
    else snake_legal_loop (temp :: before) rest

/-- Embedding of `snake_legal()`. -/
def snake_legal (g : Game) : Bool :=
  snake_legal_loop [] g.snakeHead

/-- Embedding of the game part of `initialize_game`: the cherry is drawn
first, then the five cells are added. -/
def initialize_game (draws : List Nat) (g : Game) : Outcome :=
  match new_cherry draws g with
  | Outcome.stop why => Outcome.stop why
  | Outcome.ok g0 rest =>
    let g1 := add_to_head (WIN_W / 2 - 2) (WIN_H / 2) g0
    let g2 := add_to_head (WIN_W / 2 - 1) (WIN_H / 2) g1
    let g3 := add_to_head (WIN_W / 2) (WIN_H / 2) g2
    let g4 := add_to_head (WIN_W / 2 + 1) (WIN_H / 2) g3
    let g5 := add_to_head (WIN_W / 2 + 2) (WIN_H / 2) g4
    Outcome.ok g5 rest

/-- A sequence of `move_snake` calls, one per character of `dirs`. -/
def moves : List Char → List Nat → Game → Outcome
  | [], draws, g => Outcome.ok g draws
  | dir :: more, draws, g =>
    match move_snake dir draws g with
    | Outcome.stop why => Outcome.stop why
    | Outcome.ok g1 rest => moves more rest g1

/-- The program from its start: `initialize_game` on the initial globals, then
the calls of `move_snake` for `dirs`. -/
def play (dirs : List Char) (draws : List Nat) : Outcome :=
  match initialize_game draws globals_init with
  | Outcome.stop why => Outcome.stop why
  | Outcome.ok g rest => moves dirs rest g

/-- Spec-side wording of the target of a step: the head moved by one cell in
the direction (`u`: y-1, `d`: y+1, `l`: x-1, `r`: x+1). -/
def offset_by_one (dir : Char) (h : SNcell) : SNcell :=
  if dir = 'u' then { x := h.x, y := h.y - 1 }
  else if dir = 'd' then { x := h.x, y := h.y + 1 }
  else if dir = 'l' then { x := h.x - 1, y := h.y }
  else { x := h.x + 1, y := h.y }

/-- Some attempt (a pair of successive draws) names a cell that is not on the
body: the cherry search comes to an end on these draws. -/
def free_draw (body : List SNcell) : List Nat → Bool
  | r1 :: r2 :: rest =>
    if ({ x := (r1 : Int) % (WIN_W - 2) + 1, y := (r2 : Int) % (WIN_H - 2) + 1 } : SNcell) ∈ body
    then free_draw body rest else true
  | _ => false

/-- A cell of the interior `[1, W-2] × [1, H-2]`. -/
def interior (c : SNcell) : Prop :=
  1 ≤ c.x ∧ c.x ≤ WIN_W - 2 ∧ 1 ≤ c.y ∧ c.y ≤ WIN_H - 2

instance (c : SNcell) : Decidable (interior c) := by
  unfold interior; infer_instance

/-- A cherry-eating step: the move is not rejected (the target is not the
second cell) and the target is the cherry position. -/
def eating_step (dir : Char) (g : Game) : Bool :=
  match g.snakeHead with
  | h :: nxt :: _ =>
    decide (target dir h ≠ nxt) && decide (target dir h = { x := g.cherry_x, y := g.cherry_y })
  | _ => false

/-- The body `initialize_game` builds: five cells on row `WIN_H / 2`, head
last added. -/
def initial_body : List SNcell :=
  [⟨WIN_W / 2 + 2, WIN_H / 2⟩, ⟨WIN_W / 2 + 1, WIN_H / 2⟩, ⟨WIN_W / 2, WIN_H / 2⟩,
   ⟨WIN_W / 2 - 1, WIN_H / 2⟩, ⟨WIN_W / 2 - 2, WIN_H / 2⟩]

/-- Manhattan distance between two cells. -/
def manhattan (a b : SNcell) : Nat :=
  (a.x - b.x).natAbs + (a.y - b.y).natAbs

/-- Every cell of the interior, column by column: a body that occupies the
whole interior. -/
def interior_cells : List SNcell :=
  (List.range (WIN_W - 2).toNat).flatMap fun i =>
    (List.range (WIN_H - 2).toNat).map fun j => { x := (i : Int) + 1, y := (j : Int) + 1 }


/-! ## Lemmas on the loops -/

theorem cherry_hit_iff (cx cy : Int) (l : List SNcell) :
    cherry_hit cx cy l = true ↔ ({ x := cx, y := cy } : SNcell) ∈ l := by
  induction l with
  | nil => simp [cherry_hit]
  | cons c l ih =>
    obtain ⟨a, b⟩ := c
    by_cases hc : a = cx ∧ b = cy
    · obtain ⟨rfl, rfl⟩ := hc
      simp [cherry_hit]
    · have hne : ¬ (cx = a ∧ cy = b) := fun h => hc ⟨h.1.symm, h.2.symm⟩
      simp [cherry_hit, hc, ih, hne]

theorem prev_hit_iff (temp : SNcell) (l : List SNcell) :
    prev_hit temp l = true ↔ temp ∈ l := by
  induction l with
  | nil => simp [prev_hit]
  | cons c l ih =>
    obtain ⟨a, b⟩ := c
    obtain ⟨u, v⟩ := temp
    by_cases hc : u = a ∧ v = b
    · obtain ⟨rfl, rfl⟩ := hc
      simp [prev_hit]
    · simp [prev_hit, hc, ih]

theorem get_tail_loop_append (init : List SNcell) (z : SNcell) :
    ∀ before, get_tail_loop before (init ++ [z]) = some (init.reverse ++ before, z) := by
  induction init with
  | nil => intro before; simp [get_tail_loop]
  | cons a init ih =>
    intro before
    cases init with
    | nil => simp [get_tail_loop]
    | cons b init =>
      have := ih (a :: before)
      simp only [List.cons_append] at this ⊢
      rw [get_tail_loop, this]
      simp

theorem trim_tail_append (draws : List Nat) (g : Game) (a : SNcell) (init : List SNcell)
    (z : SNcell) (hg : g.snakeHead = a :: init ++ [z]) :
    trim_tail draws g = Outcome.ok { g with snakeHead := a :: init } draws := by
  unfold trim_tail get_tail
  rw [hg, get_tail_loop_append (a :: init) z []]
  cases hr : (a :: init).reverse ++ [] with
  | nil => simp at hr
  | cons p before =>
    simp only [List.append_nil] at hr
    have : (p :: before).reverse = a :: init := by rw [← hr, List.reverse_reverse]
    simp [this]

theorem trim_tail_cons (draws : List Nat) (g : Game) (t h : SNcell) (tl : List SNcell)
    (hg : g.snakeHead = t :: h :: tl) :
    trim_tail draws g = Outcome.ok { g with snakeHead := t :: (h :: tl).dropLast } draws := by
  have hne : h :: tl ≠ [] := by simp
  have hsplit : h :: tl = (h :: tl).dropLast ++ [(h :: tl).getLast hne] :=
    (List.dropLast_append_getLast hne).symm
  apply trim_tail_append draws g t _ ((h :: tl).getLast hne)
  rw [hg, List.cons_append, ← hsplit]

theorem new_cherry_cons_cons (r1 r2 : Nat) (rest : List Nat) (g : Game) :
    new_cherry (r1 :: r2 :: rest) g =
      if ({ x := (r1 : Int) % (WIN_W - 2) + 1, y := (r2 : Int) % (WIN_H - 2) + 1 } : SNcell)
          ∈ g.snakeHead
      then new_cherry rest { g with cherry_x := (r1 : Int) % (WIN_W - 2) + 1,
                                    cherry_y := (r2 : Int) % (WIN_H - 2) + 1 }
      else Outcome.ok { g with cherry_x := (r1 : Int) % (WIN_W - 2) + 1,
                               cherry_y := (r2 : Int) % (WIN_H - 2) + 1 } rest := by
  rw [new_cherry]
  by_cases hm : ({ x := (r1 : Int) % (WIN_W - 2) + 1, y := (r2 : Int) % (WIN_H - 2) + 1 } : SNcell)
      ∈ g.snakeHead
  · have := (cherry_hit_iff _ _ _).2 hm
    simp [this, hm]
  · have hf : cherry_hit ((r1 : Int) % (WIN_W - 2) + 1) ((r2 : Int) % (WIN_H - 2) + 1)
        g.snakeHead = false := by
      cases hc : cherry_hit ((r1 : Int) % (WIN_W - 2) + 1) ((r2 : Int) % (WIN_H - 2) + 1)
        g.snakeHead with
      | false => rfl
      | true => exact absurd ((cherry_hit_iff _ _ _).1 hc) hm
    simp [hf, hm]

theorem draw_interior (r1 r2 : Nat) :
    interior { x := (r1 : Int) % (WIN_W - 2) + 1, y := (r2 : Int) % (WIN_H - 2) + 1 } := by
  unfold interior WIN_W WIN_H
  simp only
  omega

/-- What a returning `new_cherry` leaves: body and counter as they were, the
cherry on an interior cell that is not on the body, and a tail of the draws. -/
theorem new_cherry_ok (n : Nat) :
    ∀ (draws : List Nat) (g g1 : Game) (rest : List Nat), draws.length ≤ n →
      new_cherry draws g = Outcome.ok g1 rest →
      g1.snakeHead = g.snakeHead ∧ g1.num_cherries = g.num_cherries ∧
      ({ x := g1.cherry_x, y := g1.cherry_y } : SNcell) ∉ g.snakeHead ∧
      interior { x := g1.cherry_x, y := g1.cherry_y } ∧
      ∃ used, draws = used ++ rest := by
  induction n with
  | zero =>
    intro draws g g1 rest hlen h
    cases draws with
    | nil => simp [new_cherry] at h
    | cons a l => simp at hlen
  | succ n ih =>
    intro draws g g1 rest hlen h
    match draws, hlen, h with
    | [], _, h => simp [new_cherry] at h
    | [_], _, h => simp [new_cherry] at h
    | r1 :: r2 :: more, hlen, h =>
      rw [new_cherry_cons_cons] at h
      split at h
      · have hl : more.length ≤ n := by simp at hlen; omega
        obtain ⟨hb, hn, hc, hi, used, hu⟩ := ih more _ g1 rest hl h
        exact ⟨hb, hn, hc, hi, r1 :: r2 :: used, by simp [hu]⟩
      · rename_i hm
        injection h with hg hr
        subst hg hr
        exact ⟨rfl, rfl, hm, draw_interior r1 r2, [r1, r2], by simp⟩

/-- The search returns on draws among which a pair names a free cell. -/
theorem new_cherry_returns (n : Nat) :
    ∀ (draws : List Nat) (g : Game), draws.length ≤ n →
      free_draw g.snakeHead draws = true →
      ∃ g1 rest, new_cherry draws g = Outcome.ok g1 rest := by
  induction n with
  | zero =>
    intro draws g hlen h
    cases draws with
    | nil => simp [free_draw] at h
    | cons a l => simp at hlen
  | succ n ih =>
    intro draws g hlen h
    match draws, hlen, h with
    | [], _, h => simp [free_draw] at h
    | [_], _, h => simp [free_draw] at h
    | r1 :: r2 :: more, hlen, h =>
      rw [new_cherry_cons_cons]
      rw [free_draw] at h
      split at h
      · rename_i hm
        rw [if_pos hm]
        have hl : more.length ≤ n := by simp at hlen; omega
        exact ih more _ hl h
      · rename_i hm
        rw [if_neg hm]
        exact ⟨_, _, rfl⟩

/-- On draws without such a pair the search uses them all up. -/
theorem new_cherry_no_draws (n : Nat) :
    ∀ (draws : List Nat) (g : Game), draws.length ≤ n →
      free_draw g.snakeHead draws = false →
      new_cherry draws g = Outcome.stop Stop.no_draws := by
  induction n with
  | zero =>
    intro draws g hlen h
    cases draws with
    | nil => simp [new_cherry]
    | cons a l => simp at hlen
  | succ n ih =>
    intro draws g hlen h
    match draws, hlen, h with
    | [], _, h => simp [new_cherry]
    | [_], _, h => simp [new_cherry]
    | r1 :: r2 :: more, hlen, h =>
      rw [new_cherry_cons_cons]
      rw [free_draw] at h
      split at h
      · rename_i hm
        rw [if_pos hm]
        have hl : more.length ≤ n := by simp at hlen; omega
        exact ih more _ hl h
      · simp at h

theorem snake_legal_loop_iff (l : List SNcell) :
    ∀ before, snake_legal_loop before l = true ↔
      (∀ c ∈ l, interior c) ∧ (∀ c ∈ l, c ∉ before) ∧ l.Nodup := by
  induction l with
  | nil => intro before; simp [snake_legal_loop]
  | cons c l ih =>
    intro before
    rw [snake_legal_loop]
    by_cases hout : c.x < 1 ∨ c.y < 1 ∨ c.x > WIN_W - 2 ∨ c.y > WIN_H - 2
    · rw [if_pos hout]
      constructor
      · intro h; cases h
      · rintro ⟨hin, -, -⟩
        have := hin c (List.mem_cons_self _ _)
        unfold interior at this
        omega
    · rw [if_neg hout]
      have hci : interior c := by unfold interior; omega
      by_cases hp : prev_hit c before = true
      · rw [if_pos hp]
        constructor
        · intro h; cases h
        · rintro ⟨-, hnb, -⟩
          exact absurd ((prev_hit_iff _ _).1 hp) (hnb c (List.mem_cons_self _ _))
      · rw [if_neg hp, ih]
        have hcb : c ∉ before := fun h => hp ((prev_hit_iff _ _).2 h)
        constructor
        · rintro ⟨hin, hnb, hnd⟩
          refine ⟨?_, ?_, ?_⟩
          · intro d hd
            rcases List.mem_cons.1 hd with rfl | hd
            · exact hci
            · exact hin d hd
          · intro d hd
            rcases List.mem_cons.1 hd with rfl | hd
            · exact hcb
            · exact fun hb => hnb d hd (List.mem_cons_of_mem _ hb)
          · refine List.nodup_cons.2 ⟨?_, hnd⟩
            exact fun hcl => hnb c hcl (List.mem_cons_self _ _)
        · rintro ⟨hin, hnb, hnd⟩
          have hnd2 := List.nodup_cons.1 hnd
          refine ⟨fun d hd => hin d (List.mem_cons_of_mem _ hd), ?_, hnd2.2⟩
          intro d hd hdb
          rcases List.mem_cons.1 hdb with rfl | hdb
          · exact hnd2.1 hd
          · exact hnb d (List.mem_cons_of_mem _ hd) hdb

theorem snake_legal_iff (g : Game) :
    snake_legal g = true ↔ (∀ c ∈ g.snakeHead, interior c) ∧ g.snakeHead.Nodup := by
  unfold snake_legal
  rw [snake_legal_loop_iff]
  simp

theorem move_snake_cases (dir : Char) (draws : List Nat) (g : Game) (h nxt : SNcell)
    (tl : List SNcell) (hg : g.snakeHead = h :: nxt :: tl) :
    move_snake dir draws g =
      if target dir h = nxt then Outcome.ok g draws
      else if ({ x := g.cherry_x, y := g.cherry_y } : SNcell) = target dir h then
        new_cherry draws { g with snakeHead := target dir h :: g.snakeHead,
                                  num_cherries := g.num_cherries + 1 }
      else Outcome.ok { g with snakeHead := target dir h :: g.snakeHead.dropLast } draws := by
  unfold move_snake
  rw [hg]
  simp only
  obtain ⟨nx, ny⟩ := nxt
  generalize target dir h = t
  obtain ⟨tx, ty⟩ := t
  by_cases h1 : tx = nx ∧ ty = ny
  · simp [h1]
  · have h1b : ¬ (({ x := tx, y := ty } : SNcell) = { x := nx, y := ny }) := by
      simpa using h1
    rw [if_neg h1, if_neg h1b]
    by_cases h2 : g.cherry_x = tx ∧ g.cherry_y = ty
    · have h2b : ({ x := g.cherry_x, y := g.cherry_y } : SNcell) = { x := tx, y := ty } := by
        simp [h2]
      simp only [add_to_head]
      rw [if_pos h2, if_pos h2b, hg]
    · have h2b : ¬ (({ x := g.cherry_x, y := g.cherry_y } : SNcell) = { x := tx, y := ty }) := by
        simpa using h2
      simp only [add_to_head]
      rw [if_neg h2, if_neg h2b]
      rw [trim_tail_cons draws _ { x := tx, y := ty } h ({ x := nx, y := ny } :: tl) (by simp [hg])]

theorem target_eq_offset (dir : Char) (h : SNcell)
    (hdir : dir = 'u' ∨ dir = 'l' ∨ dir = 'd' ∨ dir = 'r') :
    target dir h = offset_by_one dir h := by
  rcases hdir with rfl | rfl | rfl | rfl <;> simp [target, offset_by_one]

theorem initialize_game_cons_cons (r1 r2 : Nat) (rest : List Nat) :
    initialize_game (r1 :: r2 :: rest) globals_init =
      Outcome.ok { snakeHead := initial_body,
                   cherry_x := (r1 : Int) % (WIN_W - 2) + 1,
                   cherry_y := (r2 : Int) % (WIN_H - 2) + 1,
                   num_cherries := 0 } rest := by
  unfold initialize_game
  rw [new_cherry_cons_cons]
  simp [globals_init, add_to_head, initial_body]

theorem initialize_game_ok (draws : List Nat) (g : Game) (rest : List Nat)
    (h : initialize_game draws globals_init = Outcome.ok g rest) :
    ∃ r1 r2, draws = r1 :: r2 :: rest ∧
      g = { snakeHead := initial_body,
            cherry_x := (r1 : Int) % (WIN_W - 2) + 1,
            cherry_y := (r2 : Int) % (WIN_H - 2) + 1,
            num_cherries := 0 } := by
  match draws, h with
  | [], h => simp [initialize_game, new_cherry] at h
  | [_], h => simp [initialize_game, new_cherry] at h
  | r1 :: r2 :: more, h =>
    rw [initialize_game_cons_cons] at h
    injection h with hg hr
    subst hg hr
    exact ⟨r1, r2, rfl, rfl⟩

theorem move_snake_short (dir : Char) (draws : List Nat) (g : Game)
    (h : g.snakeHead.length < 2) : move_snake dir draws g = Outcome.stop Stop.null_deref := by
  unfold move_snake
  match hb : g.snakeHead, h with
  | [], _ => rfl
  | [_], _ => rfl
  | _ :: _ :: _, h => exact absurd h (by simp)

theorem eating_step_cons (dir : Char) (g : Game) (h nxt : SNcell) (tl : List SNcell)
    (hg : g.snakeHead = h :: nxt :: tl) :
    eating_step dir g = true ↔
      target dir h ≠ nxt ∧ target dir h = { x := g.cherry_x, y := g.cherry_y } := by
  unfold eating_step
  rw [hg]
  simp

/-- The length of the body after a returning call. -/
theorem move_snake_length (dir : Char) (draws : List Nat) (g g1 : Game) (rest : List Nat)
    (hok : move_snake dir draws g = Outcome.ok g1 rest) :
    g1.snakeHead.length = g.snakeHead.length + (if eating_step dir g = true then 1 else 0) := by
  match hb : g.snakeHead with
  | [] => rw [move_snake_short dir draws g (by simp [hb])] at hok; cases hok
  | [_] => rw [move_snake_short dir draws g (by simp [hb])] at hok; cases hok
  | h :: nxt :: tl =>
    rw [move_snake_cases dir draws g h nxt tl hb] at hok
    have he := eating_step_cons dir g h nxt tl hb
    by_cases h1 : target dir h = nxt
    · rw [if_pos h1] at hok
      injection hok with hg hr
      subst hg
      have : ¬ (eating_step dir g = true) := fun hc => (he.1 hc).1 h1
      rw [if_neg this, hb]
      rfl
    · rw [if_neg h1] at hok
      by_cases h2 : ({ x := g.cherry_x, y := g.cherry_y } : SNcell) = target dir h
      · rw [if_pos h2] at hok
        obtain ⟨hbody, -⟩ := new_cherry_ok _ draws _ g1 rest le_rfl hok
        rw [if_pos (he.2 ⟨h1, h2.symm⟩), hbody]
        simp [hb]
      · rw [if_neg h2] at hok
        injection hok with hg hr
        subst hg
        have : ¬ (eating_step dir g = true) := fun hc => h2 (he.1 hc).2.symm
        rw [if_neg this, hb]
        simp

/-- A call that is not a cherry-eating step returns on a body of two or more
cells, and uses no draw. -/
theorem move_snake_returns (dir : Char) (draws : List Nat) (g : Game)
    (hlen : 2 ≤ g.snakeHead.length) (hne : eating_step dir g = false) :
    ∃ g1, move_snake dir draws g = Outcome.ok g1 draws := by
  match hb : g.snakeHead, hlen with
  | [], hlen => simp at hlen
  | [_], hlen => simp at hlen
  | h :: nxt :: tl, _ =>
    rw [move_snake_cases dir draws g h nxt tl hb]
    have he := eating_step_cons dir g h nxt tl hb
    by_cases h1 : target dir h = nxt
    · rw [if_pos h1]; exact ⟨_, rfl⟩
    · rw [if_neg h1]
      by_cases h2 : ({ x := g.cherry_x, y := g.cherry_y } : SNcell) = target dir h
      · have := he.2 ⟨h1, h2.symm⟩
        rw [hne] at this
        cases this
      · rw [if_neg h2]; exact ⟨_, rfl⟩

/-- A cherry-eating call: it returns exactly on draws with a free pair for the
grown body. -/
theorem move_snake_eating (dir : Char) (draws : List Nat) (g : Game) (h : SNcell)
    (tl : List SNcell) (hb : g.snakeHead = h :: tl) (he : eating_step dir g = true) :
    move_snake dir draws g =
      new_cherry draws { g with snakeHead := target dir h :: g.snakeHead,
                                num_cherries := g.num_cherries + 1 } := by
  match tl, hb with
  | [], hb => simp [eating_step, hb] at he
  | nxt :: tl, hb =>
    rw [move_snake_cases dir draws g h nxt tl hb]
    have := (eating_step_cons dir g h nxt tl hb).1 he
    rw [if_neg this.1, if_pos this.2.symm]

theorem moves_length_le (dirs : List Char) :
    ∀ (draws : List Nat) (g g1 : Game) (rest : List Nat),
      moves dirs draws g = Outcome.ok g1 rest → g.snakeHead.length ≤ g1.snakeHead.length := by
  induction dirs with
  | nil =>
    intro draws g g1 rest h
    simp only [moves] at h
    injection h with hg hr
    subst hg
    exact le_rfl
  | cons d more ih =>
    intro draws g g1 rest h
    rw [moves] at h
    cases hm : move_snake d draws g with
    | stop why => rw [hm] at h; cases h
    | ok g2 rest2 =>
      rw [hm] at h
      have h1 := move_snake_length d draws g g2 rest2 hm
      have h2 := ih rest2 g2 g1 rest h
      omega

theorem initial_body_length : initial_body.length = 5 := rfl

/-- Every state of a play has at least five cells. -/
theorem play_length_ge (dirs : List Char) (draws : List Nat) (g : Game) (rest : List Nat)
    (h : play dirs draws = Outcome.ok g rest) : 5 ≤ g.snakeHead.length := by
  unfold play at h
  cases hi : initialize_game draws globals_init with
  | stop why => rw [hi] at h; cases h
  | ok g0 rest0 =>
    rw [hi] at h
    obtain ⟨r1, r2, -, hg0⟩ := initialize_game_ok draws g0 rest0 hi
    have := moves_length_le dirs rest0 g0 g rest h
    rw [hg0] at this
    simpa [initial_body_length] using this

theorem new_cherry_stop (draws : List Nat) (g : Game) (why : Stop)
    (h : new_cherry draws g = Outcome.stop why) : why = Stop.no_draws := by
  cases hf : free_draw g.snakeHead draws with
  | true =>
    obtain ⟨g1, rest, hok⟩ := new_cherry_returns _ draws g le_rfl hf
    rw [hok] at h
    cases h
  | false =>
    rw [new_cherry_no_draws _ draws g le_rfl hf] at h
    injection h with hw
    exact hw.symm

/-- On a body of two or more cells a call stops only for lack of draws. -/
theorem move_snake_stop (dir : Char) (draws : List Nat) (g : Game) (why : Stop)
    (hlen : 2 ≤ g.snakeHead.length) (h : move_snake dir draws g = Outcome.stop why) :
    why = Stop.no_draws := by
  match hb : g.snakeHead, hlen with
  | [], hlen => simp at hlen
  | [_], hlen => simp at hlen
  | c :: nxt :: tl, _ =>
    rw [move_snake_cases dir draws g c nxt tl hb] at h
    by_cases h1 : target dir c = nxt
    · rw [if_pos h1] at h; cases h
    · rw [if_neg h1] at h
      by_cases h2 : ({ x := g.cherry_x, y := g.cherry_y } : SNcell) = target dir c
      · rw [if_pos h2] at h
        exact new_cherry_stop _ _ _ h
      · rw [if_neg h2] at h; cases h

/-- The counter after a returning call. -/
theorem move_snake_counter (dir : Char) (draws : List Nat) (g g1 : Game) (rest : List Nat)
    (hok : move_snake dir draws g = Outcome.ok g1 rest) :
    g1.num_cherries = g.num_cherries + (if eating_step dir g = true then 1 else 0) := by
  match hb : g.snakeHead with
  | [] => rw [move_snake_short dir draws g (by simp [hb])] at hok; cases hok
  | [_] => rw [move_snake_short dir draws g (by simp [hb])] at hok; cases hok
  | h :: nxt :: tl =>
    rw [move_snake_cases dir draws g h nxt tl hb] at hok
    have he := eating_step_cons dir g h nxt tl hb
    by_cases h1 : target dir h = nxt
    · rw [if_pos h1] at hok
      injection hok with hg hr
      subst hg
      have : ¬ (eating_step dir g = true) := fun hc => (he.1 hc).1 h1
      rw [if_neg this]
      simp
    · rw [if_neg h1] at hok
      by_cases h2 : ({ x := g.cherry_x, y := g.cherry_y } : SNcell) = target dir h
      · rw [if_pos h2] at hok
        obtain ⟨-, hn, -⟩ := new_cherry_ok _ draws _ g1 rest le_rfl hok
        rw [if_pos (he.2 ⟨h1, h2.symm⟩), hn]
      · rw [if_neg h2] at hok
        injection hok with hg hr
        subst hg
        have : ¬ (eating_step dir g = true) := fun hc => h2 (he.1 hc).2.symm
        rw [if_neg this]
        simp

/-- A property kept by every returning call (for the characters allowed by `D`)
is kept by a sequence of calls. -/
theorem moves_invariant (P : Game → Prop) (D : Char → Prop)
    (hstep : ∀ dir draws g g1 rest, D dir → P g →
      move_snake dir draws g = Outcome.ok g1 rest → P g1)
    (dirs : List Char) :
    ∀ (draws : List Nat) (g g1 : Game) (rest : List Nat), (∀ d ∈ dirs, D d) → P g →
      moves dirs draws g = Outcome.ok g1 rest → P g1 := by
  induction dirs with
  | nil =>
    intro draws g g1 rest _ hP h
    simp only [moves] at h
    injection h with hg hr
    subst hg
    exact hP
  | cons d more ih =>
    intro draws g g1 rest hD hP h
    rw [moves] at h
    cases hm : move_snake d draws g with
    | stop why => rw [hm] at h; cases h
    | ok g2 rest2 =>
      rw [hm] at h
      have hP2 := hstep d draws g g2 rest2 (hD d (List.mem_cons_self _ _)) hP hm
      exact ih rest2 g2 g1 rest (fun e he => hD e (List.mem_cons_of_mem _ he)) hP2 h

/-- A property of every initial state that every returning call keeps holds in
every state of a play. -/
theorem play_invariant (P : Game → Prop) (D : Char → Prop)
    (hinit : ∀ r1 r2 : Nat,
      P { snakeHead := initial_body,
          cherry_x := (r1 : Int) % (WIN_W - 2) + 1,
          cherry_y := (r2 : Int) % (WIN_H - 2) + 1,
          num_cherries := 0 })
    (hstep : ∀ dir draws g g1 rest, D dir → P g →
      move_snake dir draws g = Outcome.ok g1 rest → P g1)
    (dirs : List Char) (draws : List Nat) (g : Game) (rest : List Nat)
    (hD : ∀ d ∈ dirs, D d) (h : play dirs draws = Outcome.ok g rest) : P g := by
  unfold play at h
  cases hi : initialize_game draws globals_init with
  | stop why => rw [hi] at h; cases h
  | ok g0 rest0 =>
    rw [hi] at h
    obtain ⟨r1, r2, -, hg0⟩ := initialize_game_ok draws g0 rest0 hi
    have h0 : P g0 := by rw [hg0]; exact hinit r1 r2
    exact moves_invariant P D hstep dirs rest0 g0 g rest hD h0 h

theorem moves_counter_le (dirs : List Char) :
    ∀ (draws : List Nat) (g g1 : Game) (rest : List Nat),
      moves dirs draws g = Outcome.ok g1 rest → g.num_cherries ≤ g1.num_cherries := by
  induction dirs with
  | nil =>
    intro draws g g1 rest h
    simp only [moves] at h
    injection h with hg hr
    subst hg
    exact le_rfl
  | cons d more ih =>
    intro draws g g1 rest h
    rw [moves] at h
    cases hm : move_snake d draws g with
    | stop why => rw [hm] at h; cases h
    | ok g2 rest2 =>
      rw [hm] at h
      have h1 := move_snake_counter d draws g g2 rest2 hm
      have h2 := ih rest2 g2 g1 rest h
      split at h1 <;> omega

/-- The first state of a play that returns. -/
theorem play_nil_of_play (dirs : List Char) (draws : List Nat) (g : Game) (rest : List Nat)
    (h : play dirs draws = Outcome.ok g rest) :
    ∃ g0 rest0, play [] draws = Outcome.ok g0 rest0 ∧ g0.snakeHead = initial_body ∧
      g0.num_cherries = 0 ∧ interior { x := g0.cherry_x, y := g0.cherry_y } ∧
      moves dirs rest0 g0 = Outcome.ok g rest := by
  unfold play at h
  cases hi : initialize_game draws globals_init with
  | stop why => rw [hi] at h; cases h
  | ok g0 rest0 =>
    rw [hi] at h
    obtain ⟨r1, r2, -, hg0⟩ := initialize_game_ok draws g0 rest0 hi
    refine ⟨g0, rest0, ?_, ?_, ?_, ?_, h⟩
    · simp only [play, hi, moves]
    · rw [hg0]
    · rw [hg0]
    · rw [hg0]; exact draw_interior r1 r2

theorem chain_getElem (R : SNcell → SNcell → Prop) :
    ∀ l : List SNcell, List.Chain' R l →
      ∀ (i : Nat) (a b : SNcell), l[i]? = some a → l[i + 1]? = some b → R a b := by
  intro l
  induction l with
  | nil => intro _ i a b ha; simp at ha
  | cons c l ih =>
    intro hch i a b ha hb
    cases l with
    | nil => simp at hb
    | cons d t =>
      rw [List.chain'_cons] at hch
      cases i with
      | zero =>
        simp at ha hb
        rw [← ha, ← hb]
        exact hch.1
      | succ k =>
        rw [List.getElem?_cons_succ] at ha hb
        exact ih hch.2 k a b ha hb

theorem target_adjacent (dir : Char) (h : SNcell)
    (hdir : dir = 'u' ∨ dir = 'l' ∨ dir = 'd' ∨ dir = 'r') :
    manhattan (target dir h) h = 1 := by
  rcases hdir with rfl | rfl | rfl | rfl <;> simp [target, manhattan]

/-- A returning call for one of `u`, `l`, `d`, `r` keeps consecutive cells at
Manhattan distance 1. -/
theorem move_snake_chain (dir : Char) (draws : List Nat) (g g1 : Game) (rest : List Nat)
    (hdir : dir = 'u' ∨ dir = 'l' ∨ dir = 'd' ∨ dir = 'r')
    (hch : List.Chain' (fun a b => manhattan a b = 1) g.snakeHead)
    (hok : move_snake dir draws g = Outcome.ok g1 rest) :
    List.Chain' (fun a b => manhattan a b = 1) g1.snakeHead := by
  match hb : g.snakeHead with
  | [] => rw [move_snake_short dir draws g (by simp [hb])] at hok; cases hok
  | [_] => rw [move_snake_short dir draws g (by simp [hb])] at hok; cases hok
  | h :: nxt :: tl =>
    rw [move_snake_cases dir draws g h nxt tl hb] at hok
    have hgrown : List.Chain' (fun a b => manhattan a b = 1) (target dir h :: g.snakeHead) := by
      rw [hb, List.chain'_cons, ← hb]
      exact ⟨target_adjacent dir h hdir, hch⟩
    by_cases h1 : target dir h = nxt
    · rw [if_pos h1] at hok
      injection hok with hg hr
      subst hg
      exact hch
    · rw [if_neg h1] at hok
      by_cases h2 : ({ x := g.cherry_x, y := g.cherry_y } : SNcell) = target dir h
      · rw [if_pos h2] at hok
        obtain ⟨hbody, -⟩ := new_cherry_ok _ draws _ g1 rest le_rfl hok
        rw [hbody]
        exact hgrown
      · rw [if_neg h2] at hok
        injection hok with hg hr
        subst hg
        have hpre : target dir h :: g.snakeHead.dropLast <+: target dir h :: g.snakeHead := by
          have hne : g.snakeHead ≠ [] := by rw [hb]; simp
          rw [← List.dropLast_cons_of_ne_nil hne]
          exact List.dropLast_prefix _
        exact hgrown.prefix hpre

theorem initial_body_chain : List.Chain' (fun a b => manhattan a b = 1) initial_body := by
  simp [initial_body, manhattan, WIN_W, WIN_H]

/-- A returning call keeps the cherry in the interior. -/
theorem move_snake_cherry_interior (dir : Char) (draws : List Nat) (g g1 : Game)
    (rest : List Nat) (hin : interior { x := g.cherry_x, y := g.cherry_y })
    (hok : move_snake dir draws g = Outcome.ok g1 rest) :
    interior { x := g1.cherry_x, y := g1.cherry_y } := by
  match hb : g.snakeHead with
  | [] => rw [move_snake_short dir draws g (by simp [hb])] at hok; cases hok
  | [_] => rw [move_snake_short dir draws g (by simp [hb])] at hok; cases hok
  | h :: nxt :: tl =>
    rw [move_snake_cases dir draws g h nxt tl hb] at hok
    by_cases h1 : target dir h = nxt
    · rw [if_pos h1] at hok
      injection hok with hg hr
      subst hg
      exact hin
    · rw [if_neg h1] at hok
      by_cases h2 : ({ x := g.cherry_x, y := g.cherry_y } : SNcell) = target dir h
      · rw [if_pos h2] at hok
        obtain ⟨-, -, -, hi, -⟩ := new_cherry_ok _ draws _ g1 rest le_rfl hok
        exact hi
      · rw [if_neg h2] at hok
        injection hok with hg hr
        subst hg
        exact hin

theorem mem_interior_cells (c : SNcell) (hc : interior c) : c ∈ interior_cells := by
  obtain ⟨cx, cy⟩ := c
  unfold interior WIN_W WIN_H at hc
  simp only at hc
  have hw : (WIN_W - 2).toNat = 78 := by decide
  have hh : (WIN_H - 2).toNat = 22 := by decide
  have hx := Int.toNat_of_nonneg (show 0 ≤ cx - 1 by omega)
  have hy := Int.toNat_of_nonneg (show 0 ≤ cy - 1 by omega)
  unfold interior_cells
  refine List.mem_flatMap.2 ⟨(cx - 1).toNat, List.mem_range.2 ?_, ?_⟩
  · rw [hw]
    omega
  · show _ ∈ List.map
      (fun j : Nat => ({ x := (((cx - 1).toNat : Nat) : Int) + 1, y := (j : Int) + 1 } : SNcell))
      (List.range (WIN_H - 2).toNat)
    refine List.mem_map.2 ⟨(cy - 1).toNat, List.mem_range.2 ?_, ?_⟩
    · rw [hh]
      omega
    · rw [hx, hy]
      simp

/-- On a body that holds every interior cell no pair of draws is free. -/
theorem free_draw_full (body : List SNcell) (hfull : ∀ c, interior c → c ∈ body) (n : Nat) :
    ∀ draws : List Nat, draws.length ≤ n → free_draw body draws = false := by
  induction n with
  | zero =>
    intro draws hlen
    cases draws with
    | nil => rfl
    | cons a l => simp at hlen
  | succ n ih =>
    intro draws hlen
    match draws, hlen with
    | [], _ => rfl
    | [_], _ => rfl
    | r1 :: r2 :: more, hlen =>
      rw [free_draw, if_pos (hfull _ (draw_interior r1 r2))]
      exact ih more (by simp at hlen; omega)

/-- Draws that are all 0 name the cell `(1,1)` at every attempt. -/
theorem free_draw_zeros (body : List SNcell) (hmem : ({ x := 1, y := 1 } : SNcell) ∈ body)
    (n : Nat) : ∀ k, k ≤ n → free_draw body (List.replicate k 0) = false := by
  induction n with
  | zero =>
    intro k hk
    have : k = 0 := by omega
    subst this
    rfl
  | succ n ih =>
    intro k hk
    match k, hk with
    | 0, _ => rfl
    | 1, _ => rfl
    | k + 2, hk =>
      have hcell : ({ x := ((0 : Nat) : Int) % (WIN_W - 2) + 1,
                      y := ((0 : Nat) : Int) % (WIN_H - 2) + 1 } : SNcell) ∈ body := by
        have : ({ x := ((0 : Nat) : Int) % (WIN_W - 2) + 1,
                  y := ((0 : Nat) : Int) % (WIN_H - 2) + 1 } : SNcell) = { x := 1, y := 1 } := by
          decide
        rw [this]
        exact hmem
      rw [List.replicate_succ, List.replicate_succ, free_draw, if_pos hcell]
      exact ih k (by omega)

theorem mem_dropLast_iff (l : List SNcell) (c : SNcell) :
    c ∈ l.dropLast ↔ ∃ i : Nat, i + 1 < l.length ∧ l[i]? = some c := by
  rw [List.mem_iff_getElem?]
  constructor
  · rintro ⟨i, hi⟩
    rw [List.getElem?_dropLast] at hi
    split at hi
    · exact ⟨i, by omega, hi⟩
    · cases hi
  · rintro ⟨i, hlt, hi⟩
    refine ⟨i, ?_⟩
    rw [List.getElem?_dropLast, if_pos (by omega)]
    exact hi

/-- A move that is neither rejected nor a cherry-eating step: the call returns
the target followed by the body without its last cell. -/
theorem move_snake_plain (dir : Char) (draws : List Nat) (g : Game) (h nxt : SNcell)
    (tl : List SNcell) (hg : g.snakeHead = h :: nxt :: tl) (hrev : target dir h ≠ nxt)
    (hne : target dir h ≠ { x := g.cherry_x, y := g.cherry_y }) :
    move_snake dir draws g =
      Outcome.ok { g with snakeHead := target dir h :: g.snakeHead.dropLast } draws := by
  rw [move_snake_cases dir draws g h nxt tl hg, if_neg hrev, if_neg (fun e => hne e.symm)]

/-- Off the body: no cell has the cherry position. -/
theorem move_snake_cherry_off (dir : Char) (draws : List Nat) (g g1 : Game) (rest : List Nat)
    (hoff : ({ x := g.cherry_x, y := g.cherry_y } : SNcell) ∉ g.snakeHead)
    (hok : move_snake dir draws g = Outcome.ok g1 rest) :
    ({ x := g1.cherry_x, y := g1.cherry_y } : SNcell) ∉ g1.snakeHead := by
  match hb : g.snakeHead with
  | [] => rw [move_snake_short dir draws g (by simp [hb])] at hok; cases hok
  | [_] => rw [move_snake_short dir draws g (by simp [hb])] at hok; cases hok
  | h :: nxt :: tl =>
    rw [move_snake_cases dir draws g h nxt tl hb] at hok
    by_cases h1 : target dir h = nxt
    · rw [if_pos h1] at hok
      injection hok with hg hr
      subst hg
      exact hoff
    · rw [if_neg h1] at hok
      by_cases h2 : ({ x := g.cherry_x, y := g.cherry_y } : SNcell) = target dir h
      · rw [if_pos h2] at hok
        obtain ⟨hbody, -, hfree, -⟩ := new_cherry_ok _ draws _ g1 rest le_rfl hok
        rw [hbody]
        exact hfree
      · rw [if_neg h2] at hok
        injection hok with hg hr
        subst hg
        intro hmem
        rcases List.mem_cons.1 hmem with he | hd
        · exact h2 he
        · exact hoff (List.mem_of_mem_dropLast hd)

theorem mem_position_iff (c : SNcell) (l : List SNcell) :
    c ∉ l ↔ ∀ d ∈ l, ¬ (d.x = c.x ∧ d.y = c.y) := by
  constructor
  · intro hc d hd hpos
    apply hc
    obtain ⟨dx, dy⟩ := d
    obtain ⟨cx, cy⟩ := c
    simp only at hpos
    rw [← hpos.1, ← hpos.2]
    exact hd
  · intro hall hc
    exact hall c hc ⟨rfl, rfl⟩

/-- From a body of two or more cells a sequence of calls stops only for lack
of draws. -/
theorem moves_stop (dirs : List Char) :
    ∀ (draws : List Nat) (g : Game) (why : Stop), 2 ≤ g.snakeHead.length →
      moves dirs draws g = Outcome.stop why → why = Stop.no_draws := by
  induction dirs with
  | nil =>
    intro draws g why _ h
    simp only [moves] at h
    cases h
  | cons d more ih =>
    intro draws g why hlen h
    rw [moves] at h
    cases hm : move_snake d draws g with
    | stop w =>
      rw [hm] at h
      injection h with hw
      subst hw
      exact move_snake_stop d draws g w hlen hm
    | ok g2 rest2 =>
      rw [hm] at h
      have hl := move_snake_length d draws g g2 rest2 hm
      exact ih rest2 g2 why (by omega) h

/-! ## The step of `move_snake` -/

/-- C1: on a body of at least two cells and a direction among `u`, `l`, `d`,
`r`, `move_snake` is the reference step for the target (head moved by one in the
direction): target on the second cell, nothing changes; else target on the
cherry, the new body is the target followed by the whole old body and the
counter goes up by one (the call returns exactly when the cherry search does);
else the new body is the target followed by the old body without its last
cell, cherry and counter unchanged. -/
theorem move_snake_reference_step (dir : Char) (draws : List Nat) (g : Game)
    (h nxt : SNcell) (tl : List SNcell)
    (hdir : dir = 'u' ∨ dir = 'l' ∨ dir = 'd' ∨ dir = 'r')
    (hg : g.snakeHead = h :: nxt :: tl) :
    (offset_by_one dir h = nxt → move_snake dir draws g = Outcome.ok g draws) ∧
    (offset_by_one dir h ≠ nxt →
      offset_by_one dir h = { x := g.cherry_x, y := g.cherry_y } →
        (∀ g1 rest, move_snake dir draws g = Outcome.ok g1 rest →
          g1.snakeHead = offset_by_one dir h :: g.snakeHead ∧
          g1.num_cherries = g.num_cherries + 1) ∧
        (free_draw (offset_by_one dir h :: g.snakeHead) draws = true →
          ∃ g1 rest, move_snake dir draws g = Outcome.ok g1 rest) ∧
        (free_draw (offset_by_one dir h :: g.snakeHead) draws = false →
          move_snake dir draws g = Outcome.stop Stop.no_draws)) ∧
    (offset_by_one dir h ≠ nxt →
      offset_by_one dir h ≠ { x := g.cherry_x, y := g.cherry_y } →
        move_snake dir draws g =
          Outcome.ok { snakeHead := offset_by_one dir h :: g.snakeHead.dropLast,
                       cherry_x := g.cherry_x, cherry_y := g.cherry_y,
                       num_cherries := g.num_cherries } draws) := by
  have hm := move_snake_cases dir draws g h nxt tl hg
  rw [target_eq_offset dir h hdir] at hm
  refine ⟨?_, ?_, ?_⟩
  · intro h1
    rw [hm, if_pos h1]
  · intro h1 h2
    rw [if_neg h1, if_pos h2.symm] at hm
    refine ⟨?_, ?_, ?_⟩
    · intro g1 rest hok
      rw [hm] at hok
      obtain ⟨hb, hn, -⟩ := new_cherry_ok _ draws _ g1 rest le_rfl hok
      exact ⟨hb, hn⟩
    · intro hf
      rw [hm]
      exact new_cherry_returns _ draws _ le_rfl hf
    · intro hf
      rw [hm]
      exact new_cherry_no_draws _ draws _ le_rfl hf
  · intro h1 h2
    rw [hm, if_neg h1, if_neg (fun h => h2 h.symm)]

/-- Witness for C1: the three branches on concrete states with head `(42,12)`
and second cell `(41,12)`. -/
theorem move_snake_reference_step_witness :
    move_snake 'l' [5, 5]
        { snakeHead := [⟨42, 12⟩, ⟨41, 12⟩, ⟨40, 12⟩], cherry_x := 1, cherry_y := 1,
          num_cherries := 0 } =
      Outcome.ok
        { snakeHead := [⟨42, 12⟩, ⟨41, 12⟩, ⟨40, 12⟩], cherry_x := 1, cherry_y := 1,
          num_cherries := 0 } [5, 5] ∧
    (∃ g1 rest, move_snake 'r' [42, 11, 5, 5]
        { snakeHead := [⟨42, 12⟩, ⟨41, 12⟩, ⟨40, 12⟩], cherry_x := 43, cherry_y := 12,
          num_cherries := 0 } = Outcome.ok g1 rest) ∧
    move_snake 'r' [5, 5]
        { snakeHead := [⟨42, 12⟩, ⟨41, 12⟩, ⟨40, 12⟩], cherry_x := 1, cherry_y := 1,
          num_cherries := 0 } =
      Outcome.ok
        { snakeHead := [⟨43, 12⟩, ⟨42, 12⟩, ⟨41, 12⟩], cherry_x := 1, cherry_y := 1,
          num_cherries := 0 } [5, 5] :=
  ⟨(move_snake_reference_step 'l' [5, 5]
      { snakeHead := [⟨42, 12⟩, ⟨41, 12⟩, ⟨40, 12⟩], cherry_x := 1, cherry_y := 1,
        num_cherries := 0 } ⟨42, 12⟩ ⟨41, 12⟩ [⟨40, 12⟩] (by decide) rfl).1 (by decide),
   ((move_snake_reference_step 'r' [42, 11, 5, 5]
      { snakeHead := [⟨42, 12⟩, ⟨41, 12⟩, ⟨40, 12⟩], cherry_x := 43, cherry_y := 12,
        num_cherries := 0 } ⟨42, 12⟩ ⟨41, 12⟩ [⟨40, 12⟩] (by decide) rfl).2.1
      (by decide) (by decide)).2.1 (by decide),
   (move_snake_reference_step 'r' [5, 5]
      { snakeHead := [⟨42, 12⟩, ⟨41, 12⟩, ⟨40, 12⟩], cherry_x := 1, cherry_y := 1,
        num_cherries := 0 } ⟨42, 12⟩ ⟨41, 12⟩ [⟨40, 12⟩] (by decide) rfl).2.2
      (by decide) (by decide)⟩

/-- C2: in every state a sequence of `move_snake` calls reaches from the
initial state, the next call adds exactly one cell to the body when it is a
cherry-eating step (it returns as soon as the draws hold a free pair), and
otherwise returns with the body length unchanged. -/
theorem body_grows_only_on_cherry (dirs : List Char) (draws : List Nat) (g : Game)
    (rest : List Nat) (dir : Char) (hplay : play dirs draws = Outcome.ok g rest) :
    (eating_step dir g = true →
      (∀ g1 rest1, move_snake dir rest g = Outcome.ok g1 rest1 →
        g1.snakeHead.length = g.snakeHead.length + 1) ∧
      (∀ h tl, g.snakeHead = h :: tl →
        free_draw (target dir h :: g.snakeHead) rest = true →
        ∃ g1 rest1, move_snake dir rest g = Outcome.ok g1 rest1)) ∧
    (eating_step dir g = false →
      ∃ g1, move_snake dir rest g = Outcome.ok g1 rest ∧
        g1.snakeHead.length = g.snakeHead.length) := by
  have hlen := play_length_ge dirs draws g rest hplay
  refine ⟨?_, ?_⟩
  · intro he
    refine ⟨?_, ?_⟩
    · intro g1 rest1 hok
      have := move_snake_length dir rest g g1 rest1 hok
      rw [if_pos he] at this
      exact this
    · intro h tl hb hf
      rw [move_snake_eating dir rest g h tl hb he]
      exact new_cherry_returns _ rest _ le_rfl hf
  · intro he
    obtain ⟨g1, hok⟩ := move_snake_returns dir rest g (by omega) he
    refine ⟨g1, hok, ?_⟩
    have := move_snake_length dir rest g g1 rest hok
    rw [he] at this
    simpa using this

/-- Witness for C2: from the initial state with the cherry drawn at `(43,12)`,
`r` eats it and the body has six cells; `u` does not and the body keeps five. -/
theorem body_grows_only_on_cherry_witness :
    (∀ g1 rest1, move_snake 'r' [0, 0]
        { snakeHead := [⟨42, 12⟩, ⟨41, 12⟩, ⟨40, 12⟩, ⟨39, 12⟩, ⟨38, 12⟩],
          cherry_x := 43, cherry_y := 12, num_cherries := 0 } = Outcome.ok g1 rest1 →
        g1.snakeHead.length = 5 + 1) ∧
    (∃ g1, move_snake 'u' [0, 0]
        { snakeHead := [⟨42, 12⟩, ⟨41, 12⟩, ⟨40, 12⟩, ⟨39, 12⟩, ⟨38, 12⟩],
          cherry_x := 43, cherry_y := 12, num_cherries := 0 } = Outcome.ok g1 [0, 0] ∧
        g1.snakeHead.length = 5) :=
  ⟨((body_grows_only_on_cherry [] [42, 11, 0, 0]
      { snakeHead := [⟨42, 12⟩, ⟨41, 12⟩, ⟨40, 12⟩, ⟨39, 12⟩, ⟨38, 12⟩],
        cherry_x := 43, cherry_y := 12, num_cherries := 0 } [0, 0] 'r' (by decide)).1
      (by decide)).1,
   (body_grows_only_on_cherry [] [42, 11, 0, 0]
      { snakeHead := [⟨42, 12⟩, ⟨41, 12⟩, ⟨40, 12⟩, ⟨39, 12⟩, ⟨38, 12⟩],
        cherry_x := 43, cherry_y := 12, num_cherries := 0 } [0, 0] 'u' (by decide)).2
      (by decide)⟩

/-- C3: when head and second cell are grid-adjacent, one of `u`, `l`, `d`, `r`
points from the head to the second cell, and `move_snake` with such a direction
returns the state as it was: body, cherry and counter unchanged, no draw
used. -/
theorem reversal_is_noop (draws : List Nat) (g : Game) (h nxt : SNcell) (tl : List SNcell)
    (hg : g.snakeHead = h :: nxt :: tl) (hadj : manhattan h nxt = 1) :
    (∃ dir, (dir = 'u' ∨ dir = 'l' ∨ dir = 'd' ∨ dir = 'r') ∧ offset_by_one dir h = nxt) ∧
    ∀ dir, (dir = 'u' ∨ dir = 'l' ∨ dir = 'd' ∨ dir = 'r') →
      offset_by_one dir h = nxt → move_snake dir draws g = Outcome.ok g draws := by
  refine ⟨?_, ?_⟩
  · obtain ⟨hx, hy⟩ := h
    obtain ⟨nx, ny⟩ := nxt
    simp only [manhattan] at hadj
    by_cases c1 : nx = hx ∧ ny = hy - 1
    · exact ⟨'u', Or.inl rfl, by simp [offset_by_one, c1]⟩
    · by_cases c2 : nx = hx - 1 ∧ ny = hy
      · exact ⟨'l', Or.inr (Or.inl rfl), by simp [offset_by_one, c2]⟩
      · by_cases c3 : nx = hx ∧ ny = hy + 1
        · exact ⟨'d', Or.inr (Or.inr (Or.inl rfl)), by simp [offset_by_one, c3]⟩
        · have c4 : nx = hx + 1 ∧ ny = hy := by omega
          exact ⟨'r', Or.inr (Or.inr (Or.inr rfl)), by simp [offset_by_one, c4]⟩
  · intro dir hdir hoff
    rw [move_snake_cases dir draws g h nxt tl hg, target_eq_offset dir h hdir, if_pos hoff]

/-- Witness for C3: the initial body heads right, so `l` changes nothing. -/
theorem reversal_is_noop_witness :
    manhattan ⟨42, 12⟩ ⟨41, 12⟩ = 1 ∧
    move_snake 'l' [7]
        { snakeHead := [⟨42, 12⟩, ⟨41, 12⟩, ⟨40, 12⟩, ⟨39, 12⟩, ⟨38, 12⟩],
          cherry_x := 1, cherry_y := 1, num_cherries := 0 } =
      Outcome.ok
        { snakeHead := [⟨42, 12⟩, ⟨41, 12⟩, ⟨40, 12⟩, ⟨39, 12⟩, ⟨38, 12⟩],
          cherry_x := 1, cherry_y := 1, num_cherries := 0 } [7] :=
  ⟨by decide,
   (reversal_is_noop [7]
      { snakeHead := [⟨42, 12⟩, ⟨41, 12⟩, ⟨40, 12⟩, ⟨39, 12⟩, ⟨38, 12⟩],
        cherry_x := 1, cherry_y := 1, num_cherries := 0 }
      ⟨42, 12⟩ ⟨41, 12⟩ [⟨40, 12⟩, ⟨39, 12⟩, ⟨38, 12⟩] rfl (by decide)).2 'l'
      (by decide) (by decide)⟩

/-- C4: `snake_legal` returns false exactly when some body cell lies outside
`[1, W-2] × [1, H-2]` or two cells at different indices have the same position;
it returns true exactly when every cell is in the interior and the cells are
pairwise at different positions. -/
theorem snake_legal_false_iff (g : Game) :
    (snake_legal g = false ↔
      (∃ c ∈ g.snakeHead, c.x < 1 ∨ WIN_W - 2 < c.x ∨ c.y < 1 ∨ WIN_H - 2 < c.y) ∨
      (∃ (i j : Nat) (a b : SNcell), i ≠ j ∧ g.snakeHead[i]? = some a ∧ g.snakeHead[j]? = some b ∧
        a.x = b.x ∧ a.y = b.y)) ∧
    (snake_legal g = true ↔
      (∀ c ∈ g.snakeHead, 1 ≤ c.x ∧ c.x ≤ WIN_W - 2 ∧ 1 ≤ c.y ∧ c.y ≤ WIN_H - 2) ∧
      (∀ (i j : Nat) (a b : SNcell), i ≠ j → g.snakeHead[i]? = some a → g.snakeHead[j]? = some b →
        ¬ (a.x = b.x ∧ a.y = b.y))) := by
  have hnd : g.snakeHead.Nodup ↔
      (∀ (i j : Nat) (a b : SNcell), i ≠ j → g.snakeHead[i]? = some a → g.snakeHead[j]? = some b →
        ¬ (a.x = b.x ∧ a.y = b.y)) := by
    rw [List.nodup_iff_getElem?_ne_getElem?]
    constructor
    · intro hall i j a b hij ha hb hab
      have heq : a = b := by
        obtain ⟨ax, ay⟩ := a
        obtain ⟨bx, b_y⟩ := b
        simp only at hab
        rw [hab.1, hab.2]
      subst heq
      have hi : i < g.snakeHead.length := (List.getElem?_eq_some_iff.1 ha).1
      have hj : j < g.snakeHead.length := (List.getElem?_eq_some_iff.1 hb).1
      rcases Nat.lt_or_gt_of_ne hij with hlt | hgt
      · exact hall i j hlt hj (ha.trans hb.symm)
      · exact hall j i hgt hi (hb.trans ha.symm)
    · intro hall i j hij hj heq
      have hi : i < g.snakeHead.length := lt_trans hij hj
      have ha : g.snakeHead[i]? = some g.snakeHead[i] := List.getElem?_eq_getElem hi
      have hb : g.snakeHead[j]? = some g.snakeHead[j] := List.getElem?_eq_getElem hj
      have hsame : g.snakeHead[i] = g.snakeHead[j] := by
        rw [ha, hb] at heq
        exact Option.some.inj heq
      exact hall i j _ _ (Nat.ne_of_lt hij) ha hb ⟨by rw [hsame], by rw [hsame]⟩
  have htrue : snake_legal g = true ↔
      (∀ c ∈ g.snakeHead, 1 ≤ c.x ∧ c.x ≤ WIN_W - 2 ∧ 1 ≤ c.y ∧ c.y ≤ WIN_H - 2) ∧
      (∀ (i j : Nat) (a b : SNcell), i ≠ j → g.snakeHead[i]? = some a → g.snakeHead[j]? = some b →
        ¬ (a.x = b.x ∧ a.y = b.y)) := by
    rw [snake_legal_iff, hnd]
    rfl
  refine ⟨?_, htrue⟩
  rw [← Bool.not_eq_true, htrue]
  constructor
  · intro hnot
    by_contra hcon
    push_neg at hcon
    apply hnot
    refine ⟨?_, ?_⟩
    · intro c hc
      have := hcon.1 c hc
      omega
    · intro i j a b hij ha hb hab
      exact hcon.2 i j a b hij ha hb hab.1 hab.2
  · rintro (⟨c, hc, hout⟩ | ⟨i, j, a, b, hij, ha, hb, hx, hy⟩) ⟨hin, hdist⟩
    · have := hin c hc
      omega
    · exact hdist i j a b hij ha hb ⟨hx, hy⟩

/-- C5: when `new_cherry` returns, no body cell is at the cherry position it
leaves (and the body is the one it was called on). -/
theorem new_cherry_off_body (draws : List Nat) (g g1 : Game) (rest : List Nat)
    (h : new_cherry draws g = Outcome.ok g1 rest) :
    g1.snakeHead = g.snakeHead ∧
    ∀ c ∈ g1.snakeHead, ¬ (c.x = g1.cherry_x ∧ c.y = g1.cherry_y) := by
  obtain ⟨hb, -, hoff, -⟩ := new_cherry_ok _ draws g g1 rest le_rfl h
  refine ⟨hb, ?_⟩
  intro c hc hpos
  apply hoff
  rw [hb] at hc
  obtain ⟨cx, cy⟩ := c
  simp only at hpos
  rw [← hpos.1, ← hpos.2]
  exact hc

/-- Witness for C5: the first pair of draws names the body cell `(1,1)`, the
second the free cell `(2,1)`, which is where the cherry is left. -/
theorem new_cherry_off_body_witness :
    new_cherry [0, 0, 1, 0, 9]
        { snakeHead := [⟨1, 1⟩, ⟨1, 2⟩], cherry_x := 5, cherry_y := 5, num_cherries := 3 } =
      Outcome.ok
        { snakeHead := [⟨1, 1⟩, ⟨1, 2⟩], cherry_x := 2, cherry_y := 1, num_cherries := 3 } [9] ∧
    ∀ c ∈ [(⟨1, 1⟩ : SNcell), ⟨1, 2⟩], ¬ (c.x = 2 ∧ c.y = 1) :=
  ⟨by decide,
   (new_cherry_off_body [0, 0, 1, 0, 9]
      { snakeHead := [⟨1, 1⟩, ⟨1, 2⟩], cherry_x := 5, cherry_y := 5, num_cherries := 3 }
      { snakeHead := [⟨1, 1⟩, ⟨1, 2⟩], cherry_x := 2, cherry_y := 1, num_cherries := 3 } [9]
      (by decide)).2⟩

/-! ## Initialization -/

/-- C6 (the code departs from the claim): with `rand()` returning 39 and then
11, `initialize_game` returns with the cherry at `(40,12)`, which is the
middle cell of the five-cell body: the scan of `new_cherry` ran on the empty
list, before the cells were added. -/
theorem initialize_game_cherry_on_body :
    initialize_game [39, 11] globals_init =
      Outcome.ok
        { snakeHead := [⟨42, 12⟩, ⟨41, 12⟩, ⟨40, 12⟩, ⟨39, 12⟩, ⟨38, 12⟩],
          cherry_x := 40, cherry_y := 12, num_cherries := 0 } [] ∧
    cherry_hit 40 12 [⟨42, 12⟩, ⟨41, 12⟩, ⟨40, 12⟩, ⟨39, 12⟩, ⟨38, 12⟩] = true := by
  decide

/-- C7: whatever the two values `rand()` returns, `initialize_game` returns
with exactly five cells, all on row `WIN_H / 2 = 12`, with consecutive x
coordinates `WIN_W / 2 + 2` down to `WIN_W / 2 - 2` from the head (centred on
`WIN_W / 2 = 40`), every cell in the interior, `snake_legal` true and the
cherry counter 0. -/
theorem initialize_game_body (r1 r2 : Nat) (rest : List Nat) :
    ∃ g, initialize_game (r1 :: r2 :: rest) globals_init = Outcome.ok g rest ∧
      g.snakeHead.length = 5 ∧
      g.snakeHead = [⟨42, 12⟩, ⟨41, 12⟩, ⟨40, 12⟩, ⟨39, 12⟩, ⟨38, 12⟩] ∧
      (∀ c ∈ g.snakeHead, c.y = WIN_H / 2) ∧
      g.snakeHead.map (fun c => c.x) =
        [WIN_W / 2 + 2, WIN_W / 2 + 1, WIN_W / 2, WIN_W / 2 - 1, WIN_W / 2 - 2] ∧
      (∀ p ∈ g.snakeHead.zip g.snakeHead.tail, p.1.x = p.2.x + 1 ∧ p.1.y = p.2.y) ∧
      (∀ c ∈ g.snakeHead, 1 ≤ c.x ∧ c.x ≤ WIN_W - 2 ∧ 1 ≤ c.y ∧ c.y ≤ WIN_H - 2) ∧
      snake_legal g = true ∧
      g.num_cherries = 0 := by
  refine ⟨_, initialize_game_cons_cons r1 r2 rest, ?_⟩
  have hchain : ∀ p ∈ initial_body.zip initial_body.tail,
      p.1.x = p.2.x + 1 ∧ p.1.y = p.2.y := by
    decide
  have hint : ∀ c ∈ initial_body, 1 ≤ c.x ∧ c.x ≤ WIN_W - 2 ∧ 1 ≤ c.y ∧ c.y ≤ WIN_H - 2 := by
    decide
  have hrow : ∀ c ∈ initial_body, c.y = WIN_H / 2 := by decide
  have hlegal : snake_legal_loop [] initial_body = true := by decide
  exact ⟨rfl, rfl, hrow, rfl, hchain, hint, hlegal, rfl⟩

/-- C8 (as stated, refuted): with the cherry drawn at `(1,1)`, the initial
body has no cell at `(43,12)` or `(44,12)` and has the cell `(38,12)`; after
`move_snake('r')` the head is `(43,12)`, not `(45,12)`, and `(40,12)` is still
on the body. -/
theorem example_scenario_counterexample :
    play [] [0, 0] = Outcome.ok
      { snakeHead := [⟨42, 12⟩, ⟨41, 12⟩, ⟨40, 12⟩, ⟨39, 12⟩, ⟨38, 12⟩],
        cherry_x := 1, cherry_y := 1, num_cherries := 0 } [] ∧
    (⟨44, 12⟩ : SNcell) ∉ [(⟨42, 12⟩ : SNcell), ⟨41, 12⟩, ⟨40, 12⟩, ⟨39, 12⟩, ⟨38, 12⟩] ∧
    (⟨43, 12⟩ : SNcell) ∉ [(⟨42, 12⟩ : SNcell), ⟨41, 12⟩, ⟨40, 12⟩, ⟨39, 12⟩, ⟨38, 12⟩] ∧
    play ['r'] [0, 0] = Outcome.ok
      { snakeHead := [⟨43, 12⟩, ⟨42, 12⟩, ⟨41, 12⟩, ⟨40, 12⟩, ⟨39, 12⟩],
        cherry_x := 1, cherry_y := 1, num_cherries := 0 } [] ∧
    (⟨43, 12⟩ : SNcell) ≠ ⟨45, 12⟩ ∧
    (⟨40, 12⟩ : SNcell) ∈ [(⟨43, 12⟩ : SNcell), ⟨42, 12⟩, ⟨41, 12⟩, ⟨40, 12⟩, ⟨39, 12⟩] := by
  decide

/-- C8 (amended): on the 80×24 grid the initial state has its head at
`(42,12)` and body cells `(38,12)..(42,12)`; from it, `move_snake('r')` with
the cherry not at `(43,12)` gives the new head `(43,12)`, removes the tail
`(38,12)` and keeps the length at 5, cherry and counter unchanged. -/
theorem example_scenario (r1 r2 : Nat) (rest : List Nat) :
    ∃ g, play [] (r1 :: r2 :: rest) = Outcome.ok g rest ∧
      g.snakeHead = [⟨42, 12⟩, ⟨41, 12⟩, ⟨40, 12⟩, ⟨39, 12⟩, ⟨38, 12⟩] ∧
      (¬ (g.cherry_x = 43 ∧ g.cherry_y = 12) →
        ∃ g1, move_snake 'r' rest g = Outcome.ok g1 rest ∧
          play ['r'] (r1 :: r2 :: rest) = Outcome.ok g1 rest ∧
          g1.snakeHead = [⟨43, 12⟩, ⟨42, 12⟩, ⟨41, 12⟩, ⟨40, 12⟩, ⟨39, 12⟩] ∧
          g1.snakeHead.length = 5 ∧
          g1.cherry_x = g.cherry_x ∧ g1.cherry_y = g.cherry_y ∧
          g1.num_cherries = g.num_cherries) := by
  have hinit := initialize_game_cons_cons r1 r2 rest
  refine ⟨{ snakeHead := initial_body, cherry_x := (r1 : Int) % (WIN_W - 2) + 1,
             cherry_y := (r2 : Int) % (WIN_H - 2) + 1, num_cherries := 0 }, ?_, ?_, ?_⟩
  · simp only [play, hinit, moves]
  · rfl
  · intro hch
    have hstep := move_snake_cases 'r' rest
      { snakeHead := initial_body, cherry_x := (r1 : Int) % (WIN_W - 2) + 1,
        cherry_y := (r2 : Int) % (WIN_H - 2) + 1, num_cherries := 0 }
      ⟨42, 12⟩ ⟨41, 12⟩ [⟨40, 12⟩, ⟨39, 12⟩, ⟨38, 12⟩] rfl
    have ht : target 'r' ⟨42, 12⟩ = ⟨43, 12⟩ := by decide
    rw [ht, if_neg (by decide)] at hstep
    have hne : ¬ ((⟨(r1 : Int) % (WIN_W - 2) + 1, (r2 : Int) % (WIN_H - 2) + 1⟩ : SNcell) =
        ⟨43, 12⟩) := by
      intro he
      injection he with hx hy
      exact hch ⟨hx, hy⟩
    rw [if_neg hne] at hstep
    refine ⟨_, hstep, ?_, rfl, rfl, rfl, rfl, rfl⟩
    simp only [play, hinit, moves, hstep]

/-- Witness for the amended C8: the cherry drawn at `(1,1)`. -/
theorem example_scenario_witness :
    ∃ g, play [] [0, 0] = Outcome.ok g [] ∧
      g.snakeHead = [⟨42, 12⟩, ⟨41, 12⟩, ⟨40, 12⟩, ⟨39, 12⟩, ⟨38, 12⟩] ∧
      ∃ g1, move_snake 'r' [] g = Outcome.ok g1 [] ∧
        g1.snakeHead = [⟨43, 12⟩, ⟨42, 12⟩, ⟨41, 12⟩, ⟨40, 12⟩, ⟨39, 12⟩] := by
  obtain ⟨g, hplay, hbody, hmove⟩ := example_scenario 0 0 []
  have hg : g = { snakeHead := [⟨42, 12⟩, ⟨41, 12⟩, ⟨40, 12⟩, ⟨39, 12⟩, ⟨38, 12⟩],
                  cherry_x := 1, cherry_y := 1, num_cherries := 0 } := by
    have h0 : play [] [0, 0] = Outcome.ok
        { snakeHead := [⟨42, 12⟩, ⟨41, 12⟩, ⟨40, 12⟩, ⟨39, 12⟩, ⟨38, 12⟩],
          cherry_x := 1, cherry_y := 1, num_cherries := 0 } [] := by decide
    rw [h0] at hplay
    injection hplay with h1 h2
    exact h1.symm
  have hch : ¬ (g.cherry_x = 43 ∧ g.cherry_y = 12) := by
    rw [hg]; decide
  obtain ⟨g1, hm, -, hb1, -⟩ := hmove hch
  exact ⟨g, hplay, hbody, g1, hm, hb1⟩

/-! ## Borders and self-overlap -/

/-- C9 (the code departs from the claim): from the initial state with the
cherry drawn at `(1,1)`, eleven calls `move_snake('d')` return with the head at
`(42,23)`, on the bottom border row `WIN_H - 1`, and `snake_legal` is false. -/
theorem moves_leave_the_box :
    play ['d', 'd', 'd', 'd', 'd', 'd', 'd', 'd', 'd', 'd', 'd'] [0, 0] =
      Outcome.ok
        { snakeHead := [⟨42, 23⟩, ⟨42, 22⟩, ⟨42, 21⟩, ⟨42, 20⟩, ⟨42, 19⟩],
          cherry_x := 1, cherry_y := 1, num_cherries := 0 } [] ∧
    ¬ interior ⟨42, 23⟩ ∧
    snake_legal
        { snakeHead := [⟨42, 23⟩, ⟨42, 22⟩, ⟨42, 21⟩, ⟨42, 20⟩, ⟨42, 19⟩],
          cherry_x := 1, cherry_y := 1, num_cherries := 0 } = false := by
  decide

/-- C10 (the code departs from the claim): the state reached by `u`, `l` from
the initial state has pairwise distinct cells; `move_snake('d')` then puts the
head on `(41,12)`, a cell of the body that is not the second cell, and returns
a body holding `(41,12)` twice. -/
theorem move_onto_own_body :
    play ['u', 'l'] [0, 0] =
      Outcome.ok
        { snakeHead := [⟨41, 11⟩, ⟨42, 11⟩, ⟨42, 12⟩, ⟨41, 12⟩, ⟨40, 12⟩],
          cherry_x := 1, cherry_y := 1, num_cherries := 0 } [] ∧
    [(⟨41, 11⟩ : SNcell), ⟨42, 11⟩, ⟨42, 12⟩, ⟨41, 12⟩, ⟨40, 12⟩].Nodup ∧
    move_snake 'd' []
        { snakeHead := [⟨41, 11⟩, ⟨42, 11⟩, ⟨42, 12⟩, ⟨41, 12⟩, ⟨40, 12⟩],
          cherry_x := 1, cherry_y := 1, num_cherries := 0 } =
      Outcome.ok
        { snakeHead := [⟨41, 12⟩, ⟨41, 11⟩, ⟨42, 11⟩, ⟨42, 12⟩, ⟨41, 12⟩],
          cherry_x := 1, cherry_y := 1, num_cherries := 0 } [] ∧
    ¬ [(⟨41, 12⟩ : SNcell), ⟨41, 11⟩, ⟨42, 11⟩, ⟨42, 12⟩, ⟨41, 12⟩].Nodup := by
  decide

/-! ## Counter and body length along a play -/

/-- C11: the cherry counter starts at 0; in every state a sequence of
`move_snake` calls reaches from the initial state, a returning call adds exactly
1 to it when the move is not rejected and the target is the cherry position,
and leaves it unchanged otherwise; over any further sequence of calls it does
not decrease. -/
theorem counter_never_decreases (dirs : List Char) (draws : List Nat) (g : Game)
    (rest : List Nat) (hplay : play dirs draws = Outcome.ok g rest) :
    (∃ g0 rest0, play [] draws = Outcome.ok g0 rest0 ∧ g0.num_cherries = 0) ∧
    0 ≤ g.num_cherries ∧
    (∀ dir g1 rest1, move_snake dir rest g = Outcome.ok g1 rest1 →
      (eating_step dir g = true → g1.num_cherries = g.num_cherries + 1) ∧
      (eating_step dir g = false → g1.num_cherries = g.num_cherries)) ∧
    (∀ more g2 rest2, moves more rest g = Outcome.ok g2 rest2 →
      g.num_cherries ≤ g2.num_cherries) := by
  obtain ⟨g0, rest0, h0, -, hn0, -, hmoves⟩ := play_nil_of_play dirs draws g rest hplay
  refine ⟨⟨g0, rest0, h0, hn0⟩, ?_, ?_, ?_⟩
  · have := moves_counter_le dirs rest0 g0 g rest hmoves
    omega
  · intro dir g1 rest1 hok
    have hc := move_snake_counter dir rest g g1 rest1 hok
    refine ⟨fun he => ?_, fun he => ?_⟩
    · rw [if_pos he] at hc; exact hc
    · rw [he] at hc; simpa using hc
  · intro more g2 rest2 hm
    exact moves_counter_le more rest g g2 rest2 hm

/-- Witness for C11: with the cherry drawn at `(43,12)`, `r` from the initial
state eats it and the counter is 1; `u` leaves it at 0. -/
theorem counter_never_decreases_witness :
    (∀ g1 rest1, move_snake 'r' [0, 0]
        { snakeHead := [⟨42, 12⟩, ⟨41, 12⟩, ⟨40, 12⟩, ⟨39, 12⟩, ⟨38, 12⟩],
          cherry_x := 43, cherry_y := 12, num_cherries := 0 } = Outcome.ok g1 rest1 →
        g1.num_cherries = 0 + 1) ∧
    move_snake 'r' [0, 0]
        { snakeHead := [⟨42, 12⟩, ⟨41, 12⟩, ⟨40, 12⟩, ⟨39, 12⟩, ⟨38, 12⟩],
          cherry_x := 43, cherry_y := 12, num_cherries := 0 } =
      Outcome.ok
        { snakeHead := [⟨43, 12⟩, ⟨42, 12⟩, ⟨41, 12⟩, ⟨40, 12⟩, ⟨39, 12⟩, ⟨38, 12⟩],
          cherry_x := 1, cherry_y := 1, num_cherries := 1 } [] :=
  ⟨fun g1 rest1 hok =>
    (((counter_never_decreases [] [42, 11, 0, 0]
      { snakeHead := [⟨42, 12⟩, ⟨41, 12⟩, ⟨40, 12⟩, ⟨39, 12⟩, ⟨38, 12⟩],
        cherry_x := 43, cherry_y := 12, num_cherries := 0 } [0, 0] (by decide)).2.2.1
      'r' g1 rest1 hok).1 (by decide)),
   by decide⟩

/-- C12: in every state reached from the initial state by `move_snake` calls
(for any characters, so for `u`, `l`, `d`, `r`), the body is non-empty and has
at least 5 cells. -/
theorem body_at_least_five (dirs : List Char) (draws : List Nat) (g : Game)
    (rest : List Nat) (hplay : play dirs draws = Outcome.ok g rest) :
    g.snakeHead ≠ [] ∧ 5 ≤ g.snakeHead.length := by
  have h5 := play_length_ge dirs draws g rest hplay
  refine ⟨?_, h5⟩
  intro hnil
  rw [hnil] at h5
  simp at h5

/-- Witness for C12: the state after `u`, `l`, `d`, `r`, `r` with the cherry
drawn at `(1,1)`. -/
theorem body_at_least_five_witness :
    play ['u', 'l', 'd', 'r', 'r'] [0, 0] =
      Outcome.ok
        { snakeHead := [⟨43, 12⟩, ⟨42, 12⟩, ⟨41, 12⟩, ⟨41, 11⟩, ⟨42, 11⟩],
          cherry_x := 1, cherry_y := 1, num_cherries := 0 } [] ∧
    ([⟨43, 12⟩, ⟨42, 12⟩, ⟨41, 12⟩, ⟨41, 11⟩, ⟨42, 11⟩] : List SNcell) ≠ [] ∧
    5 ≤ ([⟨43, 12⟩, ⟨42, 12⟩, ⟨41, 12⟩, ⟨41, 11⟩, ⟨42, 11⟩] : List SNcell).length :=
  ⟨by decide,
   body_at_least_five ['u', 'l', 'd', 'r', 'r'] [0, 0]
     { snakeHead := [⟨43, 12⟩, ⟨42, 12⟩, ⟨41, 12⟩, ⟨41, 11⟩, ⟨42, 11⟩],
       cherry_x := 1, cherry_y := 1, num_cherries := 0 } [] (by decide)⟩

/-- C13: in every state reached from the initial state by `move_snake` calls
with directions among `u`, `l`, `d`, `r`, every two consecutive body cells are
at Manhattan distance exactly 1. -/
theorem consecutive_cells_adjacent (dirs : List Char) (draws : List Nat) (g : Game)
    (rest : List Nat) (hdirs : ∀ d ∈ dirs, d = 'u' ∨ d = 'l' ∨ d = 'd' ∨ d = 'r')
    (hplay : play dirs draws = Outcome.ok g rest) :
    ∀ (i : Nat) (a b : SNcell),
      g.snakeHead[i]? = some a → g.snakeHead[i + 1]? = some b → manhattan a b = 1 := by
  have hch : List.Chain' (fun a b => manhattan a b = 1) g.snakeHead :=
    play_invariant (fun s => List.Chain' (fun a b => manhattan a b = 1) s.snakeHead)
      (fun d => d = 'u' ∨ d = 'l' ∨ d = 'd' ∨ d = 'r')
      (fun _ _ => initial_body_chain)
      (fun dir dr s s1 r hd hs hok => move_snake_chain dir dr s s1 r hd hs hok)
      dirs draws g rest hdirs hplay
  exact chain_getElem _ g.snakeHead hch

/-- Witness for C13: after `u`, `l`, `d` (the head back on a body cell) the
first two cells `(41,12)`, `(41,11)` are at distance 1. -/
theorem consecutive_cells_adjacent_witness :
    play ['u', 'l', 'd'] [0, 0] =
      Outcome.ok
        { snakeHead := [⟨41, 12⟩, ⟨41, 11⟩, ⟨42, 11⟩, ⟨42, 12⟩, ⟨41, 12⟩],
          cherry_x := 1, cherry_y := 1, num_cherries := 0 } [] ∧
    manhattan ⟨41, 12⟩ ⟨41, 11⟩ = 1 :=
  ⟨by decide,
   consecutive_cells_adjacent ['u', 'l', 'd'] [0, 0]
     { snakeHead := [⟨41, 12⟩, ⟨41, 11⟩, ⟨42, 11⟩, ⟨42, 12⟩, ⟨41, 12⟩],
       cherry_x := 1, cherry_y := 1, num_cherries := 0 } []
     (by decide) (by decide) 0 ⟨41, 12⟩ ⟨41, 11⟩ rfl rfl⟩

/-! ## The cherry -/

/-- C14: whatever `rand()` returns, a returning `new_cherry` leaves
`1 ≤ cherry_x ≤ W-2` and `1 ≤ cherry_y ≤ H-2`; every interior cell is the
position `(rand() % (W-2) + 1, rand() % (H-2) + 1)` for some pair of draws, and
when it is not on the body `new_cherry` returns with the cherry there; and in
every state of a play the cherry is in the interior. -/
theorem cherry_inside_box :
    (∀ c : SNcell, 1 ≤ c.x ∧ c.x ≤ WIN_W - 2 ∧ 1 ≤ c.y ∧ c.y ≤ WIN_H - 2 →
      ∃ r1 r2 : Nat, (r1 : Int) % (WIN_W - 2) + 1 = c.x ∧ (r2 : Int) % (WIN_H - 2) + 1 = c.y ∧
        new_cherry [r1, r2] globals_init =
          Outcome.ok { snakeHead := [], cherry_x := c.x, cherry_y := c.y,
                       num_cherries := 0 } []) ∧
    (∀ (draws : List Nat) (g g1 : Game) (rest : List Nat),
      new_cherry draws g = Outcome.ok g1 rest →
        1 ≤ g1.cherry_x ∧ g1.cherry_x ≤ WIN_W - 2 ∧ 1 ≤ g1.cherry_y ∧ g1.cherry_y ≤ WIN_H - 2) ∧
    (∀ (g : Game) (c : SNcell),
      1 ≤ c.x ∧ c.x ≤ WIN_W - 2 ∧ 1 ≤ c.y ∧ c.y ≤ WIN_H - 2 → c ∉ g.snakeHead →
        ∃ r1 r2 : Nat, ∀ rest : List Nat,
          new_cherry (r1 :: r2 :: rest) g =
            Outcome.ok { snakeHead := g.snakeHead, cherry_x := c.x, cherry_y := c.y,
                         num_cherries := g.num_cherries } rest) ∧
    (∀ (dirs : List Char) (draws : List Nat) (g : Game) (rest : List Nat),
      play dirs draws = Outcome.ok g rest →
        1 ≤ g.cherry_x ∧ g.cherry_x ≤ WIN_W - 2 ∧ 1 ≤ g.cherry_y ∧ g.cherry_y ≤ WIN_H - 2) := by
  refine ⟨?_, ?_, ?_, ?_⟩
  · intro c hc
    obtain ⟨cx, cy⟩ := c
    simp only at hc
    unfold WIN_W WIN_H at hc
    have hx : (((cx - 1).toNat : Nat) : Int) % (WIN_W - 2) + 1 = cx := by
      rw [Int.toNat_of_nonneg (show 0 ≤ cx - 1 by omega)]
      unfold WIN_W
      omega
    have hy : (((cy - 1).toNat : Nat) : Int) % (WIN_H - 2) + 1 = cy := by
      rw [Int.toNat_of_nonneg (show 0 ≤ cy - 1 by omega)]
      unfold WIN_H
      omega
    refine ⟨(cx - 1).toNat, (cy - 1).toNat, hx, hy, ?_⟩
    rw [new_cherry_cons_cons, hx, hy, if_neg (by simp [globals_init])]
    rfl
  · intro draws g g1 rest hok
    obtain ⟨-, -, -, hi, -⟩ := new_cherry_ok _ draws g g1 rest le_rfl hok
    exact hi
  · intro g c hc hfree
    obtain ⟨cx, cy⟩ := c
    simp only at hc
    unfold WIN_W WIN_H at hc
    have hx : (((cx - 1).toNat : Nat) : Int) % (WIN_W - 2) + 1 = cx := by
      rw [Int.toNat_of_nonneg (by omega)]
      unfold WIN_W
      omega
    have hy : (((cy - 1).toNat : Nat) : Int) % (WIN_H - 2) + 1 = cy := by
      rw [Int.toNat_of_nonneg (by omega)]
      unfold WIN_H
      omega
    refine ⟨(cx - 1).toNat, (cy - 1).toNat, fun rest => ?_⟩
    rw [new_cherry_cons_cons, hx, hy, if_neg hfree]
  · intro dirs draws g rest hplay
    exact play_invariant (fun s => interior { x := s.cherry_x, y := s.cherry_y })
      (fun _ => True)
      (fun r1 r2 => draw_interior r1 r2)
      (fun dir dr s s1 r _ hs hok => move_snake_cherry_interior dir dr s s1 r hs hok)
      dirs draws g rest (fun _ _ => trivial) hplay

/-- Witness for C14: on the initial body the draws 77, 21 put the cherry on
the corner cell `(78,22)` of the interior. -/
theorem cherry_inside_box_witness :
    new_cherry [77, 21]
        { snakeHead := [⟨42, 12⟩, ⟨41, 12⟩, ⟨40, 12⟩, ⟨39, 12⟩, ⟨38, 12⟩],
          cherry_x := 1, cherry_y := 1, num_cherries := 0 } =
      Outcome.ok
        { snakeHead := [⟨42, 12⟩, ⟨41, 12⟩, ⟨40, 12⟩, ⟨39, 12⟩, ⟨38, 12⟩],
          cherry_x := 78, cherry_y := 22, num_cherries := 0 } [] ∧
    ((1 : Int) ≤ 78 ∧ (78 : Int) ≤ WIN_W - 2 ∧ (1 : Int) ≤ 22 ∧ (22 : Int) ≤ WIN_H - 2) :=
  ⟨by decide,
   cherry_inside_box.2.1 [77, 21]
     { snakeHead := [⟨42, 12⟩, ⟨41, 12⟩, ⟨40, 12⟩, ⟨39, 12⟩, ⟨38, 12⟩],
       cherry_x := 1, cherry_y := 1, num_cherries := 0 }
     { snakeHead := [⟨42, 12⟩, ⟨41, 12⟩, ⟨40, 12⟩, ⟨39, 12⟩, ⟨38, 12⟩],
       cherry_x := 78, cherry_y := 22, num_cherries := 0 } [] (by decide)⟩

/-- C15 (as stated, refuted): no bound on the number of draws makes
`new_cherry` stop: for every bound there are a body and at least that many
draws that `new_cherry` uses up without having returned. -/
theorem new_cherry_retry_cap_counterexample :
    ¬ ∃ N : Nat, ∀ (g : Game) (draws : List Nat), N ≤ draws.length →
      new_cherry draws g ≠ Outcome.stop Stop.no_draws := by
  rintro ⟨N, hN⟩
  apply hN { snakeHead := [⟨1, 1⟩], cherry_x := 0, cherry_y := 0, num_cherries := 0 }
    (List.replicate N 0) (by simp)
  apply new_cherry_no_draws _ _ _ le_rfl
  exact free_draw_zeros _ (by simp) N N le_rfl

/-- C15 (amended): `new_cherry` has no retry cap. It returns exactly when some
attempt (a pair of successive draws) names a cell that is not on the body;
otherwise it uses up all the draws without returning, and on a body that
occupies every interior cell it returns on no sequence of draws. -/
theorem new_cherry_retries_until_free :
    (∀ (draws : List Nat) (g : Game),
      (∃ g1 rest, new_cherry draws g = Outcome.ok g1 rest) ↔
        free_draw g.snakeHead draws = true) ∧
    (∀ (draws : List Nat) (g : Game), free_draw g.snakeHead draws = false →
      new_cherry draws g = Outcome.stop Stop.no_draws) ∧
    (∀ (draws : List Nat) (g : Game), (∀ c, interior c → c ∈ g.snakeHead) →
      new_cherry draws g = Outcome.stop Stop.no_draws) := by
  refine ⟨?_, ?_, ?_⟩
  · intro draws g
    constructor
    · rintro ⟨g1, rest, hok⟩
      cases hf : free_draw g.snakeHead draws with
      | true => rfl
      | false =>
        rw [new_cherry_no_draws _ draws g le_rfl hf] at hok
        cases hok
    · intro hf
      exact new_cherry_returns _ draws g le_rfl hf
  · intro draws g hf
    exact new_cherry_no_draws _ draws g le_rfl hf
  · intro draws g hfull
    exact new_cherry_no_draws _ draws g le_rfl
      (free_draw_full g.snakeHead hfull _ draws le_rfl)

/-- Witness for the amended C15: on the one-cell body `(1,1)` two attempts at
`(1,1)` use up the draws, a third attempt at `(2,1)` returns; on the body of
all interior cells the draws 5, 5, 7, 7 are used up. -/
theorem new_cherry_retries_until_free_witness :
    new_cherry [0, 0, 0, 0]
        { snakeHead := [⟨1, 1⟩], cherry_x := 0, cherry_y := 0, num_cherries := 0 } =
      Outcome.stop Stop.no_draws ∧
    (∃ g1 rest, new_cherry [0, 0, 0, 0, 1, 0]
        { snakeHead := [⟨1, 1⟩], cherry_x := 0, cherry_y := 0, num_cherries := 0 } =
      Outcome.ok g1 rest) ∧
    new_cherry [5, 5, 7, 7]
        { snakeHead := interior_cells, cherry_x := 0, cherry_y := 0, num_cherries := 0 } =
      Outcome.stop Stop.no_draws :=
  ⟨new_cherry_retries_until_free.2.1 [0, 0, 0, 0]
      { snakeHead := [⟨1, 1⟩], cherry_x := 0, cherry_y := 0, num_cherries := 0 } (by decide),
   (new_cherry_retries_until_free.1 [0, 0, 0, 0, 1, 0]
      { snakeHead := [⟨1, 1⟩], cherry_x := 0, cherry_y := 0, num_cherries := 0 }).2 (by decide),
   new_cherry_retries_until_free.2.2 [5, 5, 7, 7]
      { snakeHead := interior_cells, cherry_x := 0, cherry_y := 0, num_cherries := 0 }
      mem_interior_cells⟩

/-! ## Legality, cherry and pointer safety of a step -/

/-- C16: from a legal state with at least two cells, a move that is neither
rejected as a reversal nor a cherry-eating step returns, and the state it
returns is legal exactly when the target lies in the interior and no body cell
other than the current tail (the last cell) is at the target position. -/
theorem legal_after_plain_move (dir : Char) (draws : List Nat) (g : Game) (h nxt : SNcell)
    (tl : List SNcell) (hg : g.snakeHead = h :: nxt :: tl) (hlegal : snake_legal g = true)
    (hrev : target dir h ≠ nxt)
    (hne : target dir h ≠ { x := g.cherry_x, y := g.cherry_y }) :
    ∃ g1, move_snake dir draws g = Outcome.ok g1 draws ∧
      (snake_legal g1 = true ↔
        (1 ≤ (target dir h).x ∧ (target dir h).x ≤ WIN_W - 2 ∧
          1 ≤ (target dir h).y ∧ (target dir h).y ≤ WIN_H - 2) ∧
        ∀ (i : Nat) (c : SNcell), i + 1 < g.snakeHead.length → g.snakeHead[i]? = some c →
          ¬ (c.x = (target dir h).x ∧ c.y = (target dir h).y)) := by
  refine ⟨_, move_snake_plain dir draws g h nxt tl hg hrev hne, ?_⟩
  rw [snake_legal_iff] at hlegal ⊢
  obtain ⟨hin, hnd⟩ := hlegal
  have hnd2 : g.snakeHead.dropLast.Nodup := hnd.sublist (List.dropLast_sublist _)
  have hcells : (∀ (i : Nat) (c : SNcell), i + 1 < g.snakeHead.length →
      g.snakeHead[i]? = some c → ¬ (c.x = (target dir h).x ∧ c.y = (target dir h).y)) ↔
      target dir h ∉ g.snakeHead.dropLast := by
    rw [mem_position_iff]
    constructor
    · intro hall d hd
      obtain ⟨i, hlt, hi⟩ := (mem_dropLast_iff _ _).1 hd
      exact hall i d hlt hi
    · intro hall i c hlt hi
      exact hall c ((mem_dropLast_iff _ _).2 ⟨i, hlt, hi⟩)
  rw [hcells]
  show (∀ c ∈ target dir h :: g.snakeHead.dropLast, interior c) ∧
      (target dir h :: g.snakeHead.dropLast).Nodup ↔ interior (target dir h) ∧ _
  rw [List.nodup_cons]
  constructor
  · rintro ⟨hall, hnot, -⟩
    exact ⟨hall _ (List.mem_cons_self _ _), hnot⟩
  · rintro ⟨hti, hnot⟩
    refine ⟨?_, hnot, hnd2⟩
    intro c hc
    rcases List.mem_cons.1 hc with rfl | hc
    · exact hti
    · exact hin c (List.mem_of_mem_dropLast hc)

/-- Witness for C16: from the initial body, `u` lands on the free interior
cell `(42,11)` and the state is legal; after `u`, `l`, `d` onto the tail cell
`(40,12)` would be legal too, as the tail is trimmed in the same step. -/
theorem legal_after_plain_move_witness :
    (∃ g1, move_snake 'u' []
        { snakeHead := [⟨42, 12⟩, ⟨41, 12⟩, ⟨40, 12⟩, ⟨39, 12⟩, ⟨38, 12⟩],
          cherry_x := 1, cherry_y := 1, num_cherries := 0 } = Outcome.ok g1 [] ∧
      (snake_legal g1 = true ↔
        (1 ≤ (target 'u' ⟨42, 12⟩).x ∧ (target 'u' ⟨42, 12⟩).x ≤ WIN_W - 2 ∧
          1 ≤ (target 'u' ⟨42, 12⟩).y ∧ (target 'u' ⟨42, 12⟩).y ≤ WIN_H - 2) ∧
        ∀ (i : Nat) (c : SNcell),
          i + 1 < [(⟨42, 12⟩ : SNcell), ⟨41, 12⟩, ⟨40, 12⟩, ⟨39, 12⟩, ⟨38, 12⟩].length →
          [(⟨42, 12⟩ : SNcell), ⟨41, 12⟩, ⟨40, 12⟩, ⟨39, 12⟩, ⟨38, 12⟩][i]? = some c →
          ¬ (c.x = (target 'u' ⟨42, 12⟩).x ∧ c.y = (target 'u' ⟨42, 12⟩).y))) ∧
    snake_legal
        { snakeHead := [⟨42, 11⟩, ⟨42, 12⟩, ⟨41, 12⟩, ⟨40, 12⟩, ⟨39, 12⟩],
          cherry_x := 1, cherry_y := 1, num_cherries := 0 } = true ∧
    move_snake 'd' []
        { snakeHead := [⟨40, 11⟩, ⟨41, 11⟩, ⟨41, 12⟩, ⟨40, 12⟩],
          cherry_x := 1, cherry_y := 1, num_cherries := 0 } =
      Outcome.ok
        { snakeHead := [⟨40, 12⟩, ⟨40, 11⟩, ⟨41, 11⟩, ⟨41, 12⟩],
          cherry_x := 1, cherry_y := 1, num_cherries := 0 } [] ∧
    snake_legal
        { snakeHead := [⟨40, 12⟩, ⟨40, 11⟩, ⟨41, 11⟩, ⟨41, 12⟩],
          cherry_x := 1, cherry_y := 1, num_cherries := 0 } = true :=
  ⟨legal_after_plain_move 'u' []
      { snakeHead := [⟨42, 12⟩, ⟨41, 12⟩, ⟨40, 12⟩, ⟨39, 12⟩, ⟨38, 12⟩],
        cherry_x := 1, cherry_y := 1, num_cherries := 0 }
      ⟨42, 12⟩ ⟨41, 12⟩ [⟨40, 12⟩, ⟨39, 12⟩, ⟨38, 12⟩] rfl (by decide) (by decide) (by decide),
   by decide, by decide, by decide⟩

/-- C17: `move_snake` keeps the cherry off the body: when no body cell is at
the cherry position before a call that returns (so on a body of at least two
cells), whatever the direction and the draws, none is after it; hence along a
play the cherry can be on the body only when it already was in the initial
state. -/
theorem cherry_stays_off_body :
    (∀ (dir : Char) (draws : List Nat) (g g1 : Game) (rest : List Nat),
      (∀ c ∈ g.snakeHead, ¬ (c.x = g.cherry_x ∧ c.y = g.cherry_y)) →
      move_snake dir draws g = Outcome.ok g1 rest →
        2 ≤ g.snakeHead.length ∧
        ∀ c ∈ g1.snakeHead, ¬ (c.x = g1.cherry_x ∧ c.y = g1.cherry_y)) ∧
    (∀ (dirs : List Char) (draws : List Nat) (g0 g : Game) (rest0 rest : List Nat),
      play [] draws = Outcome.ok g0 rest0 →
      (∀ c ∈ g0.snakeHead, ¬ (c.x = g0.cherry_x ∧ c.y = g0.cherry_y)) →
      play dirs draws = Outcome.ok g rest →
        ∀ c ∈ g.snakeHead, ¬ (c.x = g.cherry_x ∧ c.y = g.cherry_y)) := by
  have hstep : ∀ (dir : Char) (draws : List Nat) (g g1 : Game) (rest : List Nat),
      (∀ c ∈ g.snakeHead, ¬ (c.x = g.cherry_x ∧ c.y = g.cherry_y)) →
      move_snake dir draws g = Outcome.ok g1 rest →
        ∀ c ∈ g1.snakeHead, ¬ (c.x = g1.cherry_x ∧ c.y = g1.cherry_y) := by
    intro dir draws g g1 rest hoff hok
    have h0 : ({ x := g.cherry_x, y := g.cherry_y } : SNcell) ∉ g.snakeHead :=
      (mem_position_iff _ _).2 hoff
    exact (mem_position_iff _ _).1 (move_snake_cherry_off dir draws g g1 rest h0 hok)
  refine ⟨?_, ?_⟩
  · intro dir draws g g1 rest hoff hok
    refine ⟨?_, hstep dir draws g g1 rest hoff hok⟩
    by_contra hlen
    rw [move_snake_short dir draws g (by omega)] at hok
    cases hok
  · intro dirs draws g0 g rest0 rest h0 hoff hplay
    obtain ⟨g0b, rest0b, h0b, -, -, -, hmoves⟩ := play_nil_of_play dirs draws g rest hplay
    rw [h0] at h0b
    injection h0b with hg hr
    subst hg hr
    exact moves_invariant
      (fun s => ∀ c ∈ s.snakeHead, ¬ (c.x = s.cherry_x ∧ c.y = s.cherry_y)) (fun _ => True)
      (fun dir dr s s1 r _ hs hok => hstep dir dr s s1 r hs hok)
      dirs rest0 g0 g rest (fun _ _ => trivial) hoff hmoves

/-- Witness for C17: with the cherry at `(43,12)` off the initial body, `r`
eats it; the first new draw `(43,12)` is the new head and is retried, the
second leaves the cherry at `(1,1)`, off the six-cell body. -/
theorem cherry_stays_off_body_witness :
    move_snake 'r' [42, 11, 0, 0]
        { snakeHead := [⟨42, 12⟩, ⟨41, 12⟩, ⟨40, 12⟩, ⟨39, 12⟩, ⟨38, 12⟩],
          cherry_x := 43, cherry_y := 12, num_cherries := 0 } =
      Outcome.ok
        { snakeHead := [⟨43, 12⟩, ⟨42, 12⟩, ⟨41, 12⟩, ⟨40, 12⟩, ⟨39, 12⟩, ⟨38, 12⟩],
          cherry_x := 1, cherry_y := 1, num_cherries := 1 } [] ∧
    ∀ c ∈ [(⟨43, 12⟩ : SNcell), ⟨42, 12⟩, ⟨41, 12⟩, ⟨40, 12⟩, ⟨39, 12⟩, ⟨38, 12⟩],
      ¬ (c.x = 1 ∧ c.y = 1) :=
  ⟨by decide,
   (cherry_stays_off_body.1 'r' [42, 11, 0, 0]
      { snakeHead := [⟨42, 12⟩, ⟨41, 12⟩, ⟨40, 12⟩, ⟨39, 12⟩, ⟨38, 12⟩],
        cherry_x := 43, cherry_y := 12, num_cherries := 0 }
      { snakeHead := [⟨43, 12⟩, ⟨42, 12⟩, ⟨41, 12⟩, ⟨40, 12⟩, ⟨39, 12⟩, ⟨38, 12⟩],
        cherry_x := 1, cherry_y := 1, num_cherries := 1 } []
      (by decide) (by decide)).2⟩

/-- C18: on a body of at least two cells `move_snake` never stops on a null
pointer: the second cell read by the reversal guard exists; on the list the
trimming branch works on (the target added as head) `get_tail` returns the
last cell of the body with a non-empty `prev` chain, and the trimmed list
followed by that cell is the list before trimming; and no play from the initial
state stops on a null pointer. -/
theorem move_snake_no_undefined_access :
    (∀ (dir : Char) (draws : List Nat) (g : Game), 2 ≤ g.snakeHead.length →
      (∃ h nxt tl, g.snakeHead = h :: nxt :: tl) ∧
      move_snake dir draws g ≠ Outcome.stop Stop.null_deref) ∧
    (∀ (draws : List Nat) (g : Game) (t : SNcell), 2 ≤ g.snakeHead.length →
      ∃ p before last,
        get_tail (add_to_head t.x t.y g) = some (p :: before, last) ∧
        g.snakeHead.getLast? = some last ∧
        trim_tail draws (add_to_head t.x t.y g) =
          Outcome.ok { g with snakeHead := (p :: before).reverse } draws ∧
        (p :: before).reverse ++ [last] = t :: g.snakeHead) ∧
    (∀ (dirs : List Char) (draws : List Nat),
      play dirs draws ≠ Outcome.stop Stop.null_deref) := by
  refine ⟨?_, ?_, ?_⟩
  · intro dir draws g hlen
    refine ⟨?_, ?_⟩
    · match hb : g.snakeHead, hlen with
      | [], hlen => simp at hlen
      | [_], hlen => simp at hlen
      | h :: nxt :: tl, _ => exact ⟨h, nxt, tl, rfl⟩
    · intro hstop
      have := move_snake_stop dir draws g _ hlen hstop
      cases this
  · intro draws g t hlen
    match hb : g.snakeHead, hlen with
    | [], hlen => simp at hlen
    | [_], hlen => simp at hlen
    | h :: nxt :: tl, _ =>
      obtain ⟨tx, ty⟩ := t
      have hne : h :: nxt :: tl ≠ [] := by simp
      have hsplit : h :: nxt :: tl =
          (h :: nxt :: tl).dropLast ++ [(h :: nxt :: tl).getLast hne] :=
        (List.dropLast_append_getLast hne).symm
      have hloop := get_tail_loop_append (⟨tx, ty⟩ :: (h :: nxt :: tl).dropLast)
        ((h :: nxt :: tl).getLast hne) []
      rw [List.cons_append, ← hsplit, List.append_nil] at hloop
      cases hr : (⟨tx, ty⟩ :: (h :: nxt :: tl).dropLast).reverse with
      | nil => simp at hr
      | cons p before =>
        rw [hr] at hloop
        have hback : (p :: before).reverse = ⟨tx, ty⟩ :: (h :: nxt :: tl).dropLast := by
          rw [← hr, List.reverse_reverse]
        have hget : get_tail (add_to_head tx ty g) =
            some (p :: before, (h :: nxt :: tl).getLast hne) := by
          unfold get_tail add_to_head
          simp only [hb]
          exact hloop
        refine ⟨p, before, (h :: nxt :: tl).getLast hne, hget, ?_, ?_, ?_⟩
        · exact List.getLast?_eq_getLast _ hne
        · unfold trim_tail
          rw [hget]
          simp [add_to_head]
        · rw [hback, List.cons_append, ← hsplit]
  · intro dirs draws hstop
    unfold play at hstop
    cases hi : initialize_game draws globals_init with
    | stop why =>
      rw [hi] at hstop
      injection hstop with hw
      subst hw
      unfold initialize_game at hi
      cases hn : new_cherry draws globals_init with
      | stop w =>
        rw [hn] at hi
        injection hi with hw2
        subst hw2
        have := new_cherry_stop draws globals_init _ hn
        cases this
      | ok g0 rest0 =>
        rw [hn] at hi
        cases hi
    | ok g0 rest0 =>
      rw [hi] at hstop
      obtain ⟨r1, r2, -, hg0⟩ := initialize_game_ok draws g0 rest0 hi
      have hlen : 2 ≤ g0.snakeHead.length := by
        rw [hg0]
        simp [initial_body_length]
      have := moves_stop dirs rest0 g0 _ hlen hstop
      cases this

/-- Witness for C18: on the initial body with the target `(42,11)` added,
`get_tail` returns the last cell `(38,12)` with the four cells before it and
the new head as its `prev` chain; and the call `u` returns. -/
theorem move_snake_no_undefined_access_witness :
    get_tail (add_to_head 42 11
        { snakeHead := [⟨42, 12⟩, ⟨41, 12⟩, ⟨40, 12⟩, ⟨39, 12⟩, ⟨38, 12⟩],
          cherry_x := 1, cherry_y := 1, num_cherries := 0 }) =
      some ([⟨39, 12⟩, ⟨40, 12⟩, ⟨41, 12⟩, ⟨42, 12⟩, ⟨42, 11⟩], ⟨38, 12⟩) ∧
    move_snake 'u' []
        { snakeHead := [⟨42, 12⟩, ⟨41, 12⟩, ⟨40, 12⟩, ⟨39, 12⟩, ⟨38, 12⟩],
          cherry_x := 1, cherry_y := 1, num_cherries := 0 } ≠
      Outcome.stop Stop.null_deref :=
  ⟨by decide,
   (move_snake_no_undefined_access.1 'u' []
      { snakeHead := [⟨42, 12⟩, ⟨41, 12⟩, ⟨40, 12⟩, ⟨39, 12⟩, ⟨38, 12⟩],
        cherry_x := 1, cherry_y := 1, num_cherries := 0 } (by decide)).2⟩

end Snake
